import Mathlib

/-!
Shallow embedding of the Tak rules engine from `src/game/rules.rs`,
`src/game/state.rs` and `src/game.rs` (repository Jakur/rust-tak).

Conventions of the embedding:
* Rust `u8` coordinates become `Nat`; every unchecked `u8` arithmetic step of
  the source is modelled with an explicit bound check, and a Rust panic
  (debug-mode overflow, `Option::unwrap` on `None`, `Vec::split_off` out of
  range, the `panic!` arm of the distribution loop) is modelled as `none` /
  `TRes.halt`.  A `u8` cast (`as u8`) truncates, modelled as `% 256`.
* `Array2<Tile>` becomes `List (List Tile)` in row-major order, matching
  `ndarray`'s `indexed_iter` order; `Array2::get` is the guarded `boardGet`.
* A Rust `Vec<Piece>` stack is a `List Piece`, bottom of the stack first;
  the stack top (`Tile::top`) is `List.getLast?`.
* The Rust `State.notation` field is called `ptnLog` here (`notation` is a
  Lean keyword); `Vec<String>` becomes `List String`.
* Functions keep their source names in lowerCamelCase (`make_move` ↦
  `makeMove`, `check_win` ↦ `checkWin`, `flat_game` ↦ `flatGame`, ...).
-/

namespace RustTak

/-- `Color` from rules.rs. -/
inductive Color where
  | White : Color
  | Black : Color
deriving DecidableEq, Repr

/-- `PieceKind` from rules.rs. -/
inductive PieceKind where
  | Flat : PieceKind
  | Wall : PieceKind
  | Cap : PieceKind
deriving DecidableEq, Repr

/-- `Piece` from rules.rs: an immutable (color, kind) pair. -/
structure Piece where
  color : Color
  kind : PieceKind
deriving DecidableEq, Repr

/-- `Tile` from rules.rs: a stack of pieces, bottom first; top = last. -/
abbrev Tile := List Piece

/-- `Tile::top`: the most recently pushed piece, if any. -/
def tileTop (t : Tile) : Option Piece := t.getLast?

/-- `Player` from rules.rs: per-color counters (`i32` fields become `Int`). -/
structure Player where
  color : Color
  pieces : Int
  caps : Int
deriving DecidableEq, Repr

/-- The board of `State`: a row-major grid of tiles. -/
abbrev Board := List (List Tile)

/-- `State` from rules.rs / state.rs.  The Rust field `notation` is renamed
`ptnLog` because of the Lean keyword. -/
structure State where
  board : Board
  size : Nat
  player1 : Player
  player2 : Player
  ptnLog : List String
deriving DecidableEq, Repr

/-- `Move` from rules.rs: placement or stack throw, with the ptn string. -/
inductive Move where
  | Place : PieceKind → Nat × Nat → String → Move
  | Throw : Nat × Nat × Nat → Char → List Nat → String → Move
deriving DecidableEq, Repr

/-- `Victory` from rules.rs (all ten variants; `u32` payloads become `Nat`). -/
inductive Victory where
  | Neither : Victory
  | WhiteFlat : Nat → Victory
  | WhiteRoad : Victory
  | WhiteOther : Victory
  | BlackFlat : Nat → Victory
  | BlackRoad : Victory
  | BlackOther : Victory
  | White : Nat → Victory
  | Black : Nat → Victory
  | Draw : Victory
deriving DecidableEq, Repr

/-- The per-size (pieces, capstones) table of `State::new`. -/
def piecesFor (size : Nat) : Int × Int :=
  match size with
  | 3 => (10, 0)
  | 4 => (15, 0)
  | 5 => (21, 1)
  | 6 => (30, 1)
  | 8 => (50, 2)
  | _ => (21, 1)

/-- `State::new`: an empty size×size board with full counters. -/
def stateNew (size : Nat) : State :=
  { board := List.replicate size (List.replicate size ([] : Tile))
    size := size
    player1 := { color := .White, pieces := (piecesFor size).1, caps := (piecesFor size).2 }
    player2 := { color := .Black, pieces := (piecesFor size).1, caps := (piecesFor size).2 }
    ptnLog := [] }

/-- `Array2::get`: guarded two-dimensional lookup. -/
def boardGet (b : Board) (i j : Nat) : Option Tile :=
  (b[i]?).bind fun row => row[j]?

/-- Lookup through the state, as `self.get_state().board.get(..)`. -/
def tileGet (s : State) (i j : Nat) : Option Tile :=
  boardGet s.board i j

/-- Replace a list element in place (identity when the index is out of range). -/
def updAt (f : α → α) : List α → Nat → List α
  | [], _ => []
  | x :: xs, 0 => f x :: xs
  | x :: xs, n + 1 => x :: updAt f xs n

/-- Update one tile of the board (identity when the index is out of range;
the source only ever mutates indices it has successfully read). -/
def updTile (b : Board) (p : Nat × Nat) (f : Tile → Tile) : Board :=
  updAt (fun row => updAt f row p.2) b p.1

/-- `RuleSet::out_of_bounds` from rules.rs (note: `>` rather than `>=`). -/
def ruleOutOfBounds (s : State) (p : Nat × Nat) : Bool :=
  p.1 > s.size || p.2 > s.size

/-- `State::out_of_bounds` from state.rs (the `>=` version). -/
def stateOutOfBounds (s : State) (row col : Nat) : Bool :=
  row ≥ s.size || col ≥ s.size

/-- `State::is_empty` from state.rs, transliterated:
`board.get(..).map(|tile| tile.top()).is_some()`. -/
def stateIsEmpty (s : State) (row col : Nat) : Bool :=
  ((tileGet s row col).map (fun t => tileTop t)).isSome

/-- `RuleSet::current_player` / the `match color` blocks of `make_move`. -/
def currentPlayer (s : State) (c : Color) : Player :=
  match c with
  | .White => s.player1
  | .Black => s.player2

/-- Three-valued stage outcome for the throw validation pipeline:
`halt` is a Rust panic, `rej` an ordinary `return false`. -/
inductive TRes (α : Type) where
  | halt : TRes α
  | rej : TRes α
  | ok : α → TRes α
deriving DecidableEq, Repr

/-- One step of the validation walk of `make_move` (the first `match dir`
inside the `for val in vec.iter()` loop).  `u8` debug arithmetic: `+= 1`
past 255 and `-= 1` past 0 panic; an unknown direction is `return false`. -/
def stepF (dir : Char) (p : Nat × Nat) : TRes (Nat × Nat) :=
  match dir with
  | '+' => if p.1 + 1 ≤ 255 then .ok (p.1 + 1, p.2) else .halt
  | '-' => if 1 ≤ p.1 then .ok (p.1 - 1, p.2) else .halt
  | '<' => if 1 ≤ p.2 then .ok (p.1, p.2 - 1) else .halt
  | '>' => if p.2 + 1 ≤ 255 then .ok (p.1, p.2 + 1) else .halt
  | _ => .rej

/-- One step of the execution loop of `make_move` (the second `match dir`,
stepping backwards; its catch-all arm is a `panic!`). -/
def stepB (dir : Char) (p : Nat × Nat) : Option (Nat × Nat) :=
  match dir with
  | '+' => if 1 ≤ p.1 then some (p.1 - 1, p.2) else none
  | '-' => if p.1 + 1 ≤ 255 then some (p.1 + 1, p.2) else none
  | '<' => if p.2 + 1 ≤ 255 then some (p.1, p.2 + 1) else none
  | '>' => if 1 ≤ p.2 then some (p.1, p.2 - 1) else none
  | _ => none

/-- The farthest-target computation of `make_move` (`x += vec.len() as u8`
etc.).  For `-`/`<` the source compares `x as usize >= vec.len()` before
subtracting the truncated length; for `+`/`>` the addition may overflow
(debug panic). -/
def throwDest (r c : Nat) (dir : Char) (len : Nat) : TRes (Nat × Nat) :=
  match dir with
  | '+' => if r + len % 256 ≤ 255 then .ok (r + len % 256, c) else .halt
  | '-' => if len ≤ r then .ok (r - len % 256, c) else .rej
  | '<' => if len ≤ c then .ok (r, c - len % 256) else .rej
  | '>' => if c + len % 256 ≤ 255 then .ok (r, c + len % 256) else .halt
  | _ => .rej

/-- The wall-crush / capstone inspection of the final landing square
(`//Check the last position in the throw vector for special case wall crush`).
`lastT` is the tile at the landing square, `srcTop` the (guaranteed) top of
the source stack, `vec` the drop list. -/
def crushChk (lastT : Tile) (srcTop : Piece) (vec : List Nat) : TRes Unit :=
  if lastT.isEmpty then .ok ()
  else
    match tileTop lastT with
    | some p =>
      match p.kind with
      | .Wall =>
        match srcTop.kind with
        | .Cap => if vec.getLast? ≠ some 1 then .rej else .ok ()
        | _ => .rej
      | .Cap => .rej
      | .Flat => .ok ()
    | none => .ok ()

/-- The validation walk of `make_move`: step along `dir`, skip the
pre-validated final square `d`, require a `Flat` (or empty) top elsewhere,
and accumulate the `u8` sum of the drop counts.  Returns the sum together
with the final walk position (the Rust `x, y` after the loop). -/
def walk (s : State) (dir : Char) (d : Nat × Nat) :
    Nat × Nat → List Nat → Nat → TRes (Nat × (Nat × Nat))
  | pos, [], sum => .ok (sum, pos)
  | pos, v :: rest, sum =>
    match stepF dir pos with
    | .halt => .halt
    | .rej => .rej
    | .ok q =>
      if q = d then
        if sum + v ≤ 255 then walk s dir d q rest (sum + v) else .halt
      else
        match tileGet s q.1 q.2 with
        | none => .halt
        | some t =>
          match tileTop t with
          | some p =>
            match p.kind with
            | .Flat => if sum + v ≤ 255 then walk s dir d q rest (sum + v) else .halt
            | _ => .rej
          | none => if sum + v ≤ 255 then walk s dir d q rest (sum + v) else .halt

/-- The execution loop of `make_move` (`for val in vec.iter().rev()`):
starting from the final walk position, drain the top `v` pieces of the
carried stack onto the current square, then step backwards.  The guard
`v ≤ sv.length` models the `drain(length - val..length)` range panic. -/
def distrib (dir : Char) : Board → Nat × Nat → List Nat → List Piece → Option Board
  | b, _, [], _ => some b
  | b, pos, v :: rest, sv =>
    if v ≤ sv.length then
      let chunk := sv.drop (sv.length - v)
      let b' := updTile b pos (fun t => t ++ chunk)
      match stepB dir pos with
      | some q => distrib dir b' q rest (sv.take (sv.length - v))
      | none => none
    else none

/-- `RuleSet::make_move` from rules.rs (default trait method, acting on the
wrapped `State`).  Result `none` models a Rust panic, `some (false, s)` a
rejected move (`return false`), `some (true, s')` an executed move. -/
def makeMove (s : State) (m : Move) (c : Color) : Option (Bool × State) :=
  match m with
  | .Place k (a, b) ptn =>
    match k with
    | .Cap =>
      -- `self.is_empty((a, b))` calls `get_tile(..).unwrap()`: panic off-grid.
      match tileGet s a b with
      | none => none
      | some t =>
        if t.isEmpty then
          if ¬ ruleOutOfBounds s (a, b) then
            if (currentPlayer s c).caps > 0 then
              some (true,
                { s with
                  board := updTile s.board (a, b) (fun t0 => t0 ++ [⟨c, .Cap⟩])
                  player1 := if c = .White then
                      { s.player1 with caps := s.player1.caps - 1 } else s.player1
                  player2 := if c = .Black then
                      { s.player2 with caps := s.player2.caps - 1 } else s.player2
                  ptnLog := s.ptnLog ++ [ptn] })
            else some (false, s)
          else some (false, s)
        else some (false, s)
    | _ =>
      match tileGet s a b with
      | none => none
      | some t =>
        if t.isEmpty then
          if ¬ ruleOutOfBounds s (a, b) then
            some (true,
              { s with
                board := updTile s.board (a, b) (fun t0 => t0 ++ [⟨c, k⟩])
                player1 := if c = .White then
                    { s.player1 with pieces := s.player1.pieces - 1 } else s.player1
                player2 := if c = .Black then
                    { s.player2 with pieces := s.player2.pieces - 1 } else s.player2
                ptnLog := s.ptnLog ++ [ptn] })
          else some (false, s)
        else some (false, s)
  | .Throw (n, r, cc) dir vec ptn =>
    if n > s.size || ruleOutOfBounds s (r, cc) then some (false, s)
    else
      match tileGet s r cc with
      | none => none -- `get_tile` unwrap panic (row/col equal to size)
      | some srcT =>
        if vec.length < 1 || srcT.isEmpty then some (false, s)
        else
          match tileTop srcT with
          | none => none -- unreachable: `top().unwrap()` on a non-empty stack
          | some topP =>
            if c ≠ topP.color then some (false, s)
            else
              match throwDest r cc dir vec.length with
              | .halt => none
              | .rej => some (false, s)
              | .ok d =>
                if ruleOutOfBounds s d then some (false, s)
                else
                  match tileGet s d.1 d.2 with
                  | none => none -- `get_tile` unwrap panic at the landing square
                  | some lastT =>
                    match crushChk lastT topP vec with
                    | .halt => none
                    | .rej => some (false, s)
                    | .ok _ =>
                      match walk s dir d (r, cc) vec 0 with
                      | .halt => none
                      | .rej => some (false, s)
                      | .ok (sum, endP) =>
                        if sum ≤ srcT.length then
                          let keep := srcT.take (srcT.length - sum)
                          let moved := srcT.drop (srcT.length - sum)
                          let b1 := updTile s.board (r, cc) (fun _ => keep)
                          match distrib dir b1 endP vec.reverse moved with
                          | some b2 =>
                            some (true, { s with board := b2, ptnLog := s.ptnLog ++ [ptn] })
                          | none => none
                        else none -- `split_off(source_len - sum)` panic

/-- `Reached` from rules.rs: which board edges a component has touched. -/
structure Reached where
  north : Bool
  south : Bool
  east : Bool
  west : Bool
deriving DecidableEq, Repr

/-- `RuleSet::is_edge` from rules.rs. -/
def isEdge (size : Nat) (p : Nat × Nat) : Bool :=
  p.1 = 0 || p.1 = size - 1 || p.2 = 0 || p.2 = size - 1

/-- Update the `Reached` flags for a node, as the flag-setting block of
`search` (and the pre-seeding block of `check_win`). -/
def setFlags (size : Nat) (p : Nat × Nat) (r : Reached) : Reached :=
  { north := r.north || p.1 = 0
    south := r.south || p.1 = size - 1
    west := r.west || p.2 = 0
    east := r.east || p.2 = size - 1 }

/-- `RuleSet::search` from rules.rs: depth-first road search.  The shared
`Rc<RefCell<_>>` cells for the `Reached` flags and the discovered set are
modelled by threading the state through the (short-circuiting) recursive
calls; `fuel` only bounds the recursion depth and is chosen large enough in
`checkWin` that it is never exhausted. -/
def search (s : State) (ws : Bool) :
    Nat → Reached → List (Nat × Nat) → Nat × Nat → Bool × Reached × List (Nat × Nat)
  | 0, r, set, _ => (false, r, set)
  | fuel + 1, r, set, node =>
    match boardGet s.board node.1 node.2 with
    | none => (false, r, set)
    | some tile =>
      match tileTop tile with
      | none => (false, r, set)
      | some p =>
        match p.kind with
        | .Wall =>
          if node ∈ set then (false, r, set) else (false, r, node :: set)
        | _ =>
          let white := p.color = Color.White
          if node ∈ set then (false, r, set)
          else
            let set1 := node :: set
            if white ≠ ws then (false, r, set1)
            else
              let r1 := setFlags s.size node r
              if (r1.north && r1.south) || (r1.east && r1.west) then (true, r1, set1)
              else
                -- recurse down, right, (left), (up), sharing r/set state
                let c1 := search s ws fuel r1 set1 (node.1 + 1, node.2)
                if c1.1 then c1
                else
                  let c2 := search s ws fuel c1.2.1 c1.2.2 (node.1, node.2 + 1)
                  if c2.1 then c2
                  else
                    if node.1 = 0 then
                      if node.2 = 0 then c2
                      else search s ws fuel c2.2.1 c2.2.2 (node.1, node.2 - 1)
                    else if node.2 = 0 then
                      search s ws fuel c2.2.1 c2.2.2 (node.1 - 1, node.2)
                    else
                      let c3 := search s ws fuel c2.2.1 c2.2.2 (node.1, node.2 - 1)
                      if c3.1 then c3
                      else search s ws fuel c3.2.1 c3.2.2 (node.1 - 1, node.2)

/-- The positions produced by `board.indexed_iter()`, row-major. -/
def boardIdx (b : Board) : List (Nat × Nat) :=
  (b.enum.map (fun ir =>
    (ir.2.enum.map (fun jt => (ir.1, jt.1))))).flatten

/-- The edge-cell iteration of `check_win`
(`indexed_iter().filter(|x| self.is_edge(x.0))`). -/
def edgeIdx (s : State) : List (Nat × Nat) :=
  (boardIdx s.board).filter (fun p => isEdge s.size p)

/-- All tiles of the board in `board.iter()` order. -/
def boardTiles (b : Board) : List Tile := b.flatten

/-- `RuleSet::flat_game` from rules.rs: count `Flat` tops per color and
compare with the komi added to black's count. -/
def flatGame (s : State) (komi : Nat) : Victory :=
  let white := (boardTiles s.board).foldl
    (fun n t =>
      match tileTop t with
      | some ⟨Color.White, PieceKind.Flat⟩ => n + 1
      | _ => n) 0
  let black := (boardTiles s.board).foldl
    (fun n t =>
      match tileTop t with
      | some ⟨Color.Black, PieceKind.Flat⟩ => n + 1
      | _ => n) 0
  if white > black + komi then Victory.White (white - komi)
  else if black + komi > white then Victory.Black (black + komi)
  else Victory.Draw

/-- The road-scan loop of `check_win` over the edge cells.  `Except.error`
models the early `return` when both colors have completed roads. -/
def roadLoop (s : State) (lastToMove : Color) (fuel : Nat) :
    List (Nat × Nat) → List (Nat × Nat) → Bool → Bool →
    Except Victory (List (Nat × Nat) × Bool × Bool)
  | [], set, wr, br => .ok (set, wr, br)
  | p :: rest, set, wr, br =>
    if p ∈ set then roadLoop s lastToMove fuel rest set wr br
    else
      match (tileGet s p.1 p.2).bind tileTop with
      | none => roadLoop s lastToMove fuel rest set wr br
      | some piece =>
        let wp := piece.color = Color.White
        if wr && wp then roadLoop s lastToMove fuel rest set wr br
        else if br && !wp then roadLoop s lastToMove fuel rest set wr br
        else
          let r0 := setFlags s.size p ⟨false, false, false, false⟩
          let res := search s wp fuel r0 set p
          if res.1 then
            let wr' := wr || wp
            let br' := br || !wp
            if wr' && br' then
              .error (if lastToMove = Color.White then Victory.White 0 else Victory.Black 0)
            else roadLoop s lastToMove fuel rest res.2.2 wr' br'
          else roadLoop s lastToMove fuel rest res.2.2 wr br

/-- `RuleSet::check_win` from rules.rs.  `komi` stands for the
`StandardRules.komi` field reached through `get_komi`. -/
def checkWin (s : State) (komi : Nat) (lastToMove : Color) : Victory :=
  match roadLoop s lastToMove (s.size * s.size + 2) (edgeIdx s) [] false false with
  | .error v => v
  | .ok (set, wr, br) =>
    if wr then Victory.White 0
    else if br then Victory.Black 0
    else if s.player1.pieces = 0 || s.player2.pieces = 0 then flatGame s komi
    else if s.size * s.size = set.length then flatGame s komi
    else if (boardTiles s.board).any (fun t => t.isEmpty) then Victory.Neither
    else flatGame s komi

/-- `StandardOpening::legal_move` from rules.rs: only in-bounds flat
placements onto empty tiles are legal in the opening.  `none` models the
panic of `get_tile(..).unwrap()` when `out_of_bounds` (the `>` version)
passes a square that is off the actual grid. -/
def openingLegalMove (s : State) (m : Move) : Option Bool :=
  match m with
  | .Place k p _ =>
    match k with
    | .Flat =>
      if ruleOutOfBounds s p then some false
      else
        match tileGet s p.1 p.2 with
        | none => none
        | some t => some t.isEmpty
    | _ => some false
  | _ => some false

/-- `StandardOpening::current_color` from rules.rs: the color of the piece
placed during an opening ply. -/
def openingColor (ply : Nat) : Color :=
  if ply % 2 = 0 then Color.Black else Color.White

/-- The game wrapper: `StandardRules` (state + komi) plus the ply counter of
the orchestrating `Game`. -/
structure Game where
  state : State
  komi : Nat
  ply : Nat
deriving DecidableEq, Repr

/-- `make_standard_game` from game.rs. -/
def gameNew (size : Nat) (komi : Nat) : Game :=
  { state := stateNew size, komi := komi, ply := 0 }

/-- Modelled from the spec: the `Game::read_move` orchestrator.  The crate
snapshot under src/ only contains the `read_move` shim of game.rs (whose
`Rules` trait is missing) and the `StandardOpening`/`RuleSet` pieces of
rules.rs, so the wiring follows spec §4.4: during the opening (ply < 2) the
move must pass `StandardOpening::legal_move` and is executed with
`StandardOpening::current_color`; afterwards normal parity picks the mover,
and on success the ply is incremented and `check_win` is invoked with the
mover's color — opening plies always report `Neither`, and a failed move
leaves the game unchanged. -/
def readMove (g : Game) (m : Move) : Option ((Bool × Victory) × Game) :=
  if g.ply < 2 then
    match openingLegalMove g.state m with
    | none => none
    | some false => some ((false, Victory.Neither), g)
    | some true =>
      match makeMove g.state m (openingColor g.ply) with
      | none => none
      | some (true, s') =>
        some ((true, Victory.Neither), { g with state := s', ply := g.ply + 1 })
      | some (false, s') => some ((false, Victory.Neither), { g with state := s' })
  else
    let c := if g.ply % 2 = 0 then Color.White else Color.Black
    match makeMove g.state m c with
    | none => none
    | some (true, s') =>
      some ((true, checkWin s' g.komi c), { g with state := s', ply := g.ply + 1 })
    | some (false, s') => some ((false, Victory.Neither), { g with state := s' })

/-- Run a list of moves, requiring every one of them to be accepted
(`read_move` returning `true`); the reported victories are unconstrained. -/
def playSucc (g : Game) : List Move → Option Game
  | [] => some g
  | m :: ms =>
    match readMove g m with
    | some ((true, _), g') => playSucc g' ms
    | _ => none

/-- Run a list of moves, requiring every one to be accepted and to report
`Victory.Neither` (play that stops as soon as the game is decided). -/
def playNeither (g : Game) : List Move → Option Game
  | [] => some g
  | m :: ms =>
    match readMove g m with
    | some ((true, Victory.Neither), g') => playNeither g' ms
    | _ => none

/-- Verification invariant for the counter claims: capstone counters are
non-negative, piece counters positive, and during the opening plies the
piece counters still have slack (they start at ≥ 10). -/
def countersInv (g : Game) : Prop :=
  0 ≤ g.state.player1.caps ∧ 0 ≤ g.state.player2.caps ∧
  1 ≤ g.state.player1.pieces ∧ 1 ≤ g.state.player2.pieces ∧
  (g.ply < 2 →
    (4 - (g.ply : Int) ≤ g.state.player1.pieces ∧
     4 - (g.ply : Int) ≤ g.state.player2.pieces))

section SpecRoad

/-- Spec-side definition (4.3 / glossary "Road"): a square is a road cell of
color `c` when its top piece is a `Flat` or `Cap` of that color. -/
def roadCell (s : State) (c : Color) (p : Nat × Nat) : Bool :=
  match (tileGet s p.1 p.2).bind tileTop with
  | some piece =>
    piece.color = c && (piece.kind = PieceKind.Flat || piece.kind = PieceKind.Cap)
  | none => false

/-- 4-directional adjacency of grid squares. -/
def adjacent (p q : Nat × Nat) : Bool :=
  (p.1 = q.1 && (p.2 + 1 = q.2 || q.2 + 1 = p.2)) ||
  (p.2 = q.2 && (p.1 + 1 = q.1 || q.1 + 1 = p.1))

/-- All squares of an `n × n` grid. -/
def gridCells (n : Nat) : List (Nat × Nat) :=
  ((List.range n).map (fun i => (List.range n).map (fun j => (i, j)))).flatten

/-- One closure step: every road cell already reached or adjacent to a
reached cell. -/
def growReach (s : State) (c : Color) (cur : List (Nat × Nat)) : List (Nat × Nat) :=
  (gridCells s.size).filter
    (fun q => roadCell s c q && (q ∈ cur || cur.any (fun p => adjacent p q)))

/-- Road cells reachable from `init` within the road cells of color `c`
(iterating the closure step `size * size` times reaches a fixpoint). -/
def reachFrom (s : State) (c : Color) (init : List (Nat × Nat)) : List (Nat × Nat) :=
  Nat.iterate (growReach s c) (s.size * s.size) (init.filter (roadCell s c))

/-- Spec-side road existence: a connected path of `c`-colored Flat/Cap tops
joins the north and south edges, or the east and west edges. -/
def specRoadExists (s : State) (c : Color) : Bool :=
  let northCells := (gridCells s.size).filter (fun p => p.1 = 0)
  let westCells := (gridCells s.size).filter (fun p => p.2 = 0)
  ((reachFrom s c northCells).any (fun p => p.1 = s.size - 1)) ||
  ((reachFrom s c westCells).any (fun p => p.2 = s.size - 1))

end SpecRoad

/-- `MovementRules::place_move` from rules.rs: the standalone placement
helper guarded by `State::out_of_bounds` and `State::is_empty`; `none`
models the `bail!` error returns. -/
def placeMove (s : State) (piece : Piece) (row col : Nat) : Option State :=
  if stateOutOfBounds s row col || !(stateIsEmpty s row col) then none
  else
    match piece.kind with
    | .Cap =>
      if ¬ ((currentPlayer s piece.color).caps > 0) then none
      else
        some { s with
          board := updTile s.board (row, col) (fun t => t ++ [piece])
          player1 := if piece.color = .White then
              { s.player1 with caps := s.player1.caps - 1 } else s.player1
          player2 := if piece.color = .Black then
              { s.player2 with caps := s.player2.caps - 1 } else s.player2 }
    | _ =>
      some { s with
        board := updTile s.board (row, col) (fun t => t ++ [piece])
        player1 := if piece.color = .White then
            { s.player1 with pieces := s.player1.pieces - 1 } else s.player1
        player2 := if piece.color = .Black then
            { s.player2 with pieces := s.player2.pieces - 1 } else s.player2 }

/-- Iterated forward stepping along a throw direction (`k` validation-walk
steps from `p`). -/
def iterF (dir : Char) : Nat × Nat → Nat → TRes (Nat × Nat)
  | p, 0 => .ok p
  | p, k + 1 =>
    match stepF dir p with
    | .ok q => iterF dir q k
    | .halt => .halt
    | .rej => .rej

/-- Iterated backward stepping along a throw direction (`j` execution-loop
steps from `p`). -/
def iterB (dir : Char) : Nat × Nat → Nat → Option (Nat × Nat)
  | p, 0 => some p
  | p, k + 1 =>
    match stepB dir p with
    | some q => iterB dir q k
    | none => none

/-- The slice of the carried stack that lands on the square handled at step
`j` of the (reversed) execution loop: the pieces below the top
`(rv.take j).sum` ones, `rv[j]` of them. -/
def chunkOf (rv : List Nat) (sv : List Piece) (j : Nat) : List Piece :=
  (sv.drop (sv.length - (rv.take (j + 1)).sum)).take (rv.getD j 0)

/-- Spec-side flat count: the number of tiles topped by a flat of color `c`
(spec §4.3: "count Flat tops per color"). -/
def flatCount (s : State) (c : Color) : Nat :=
  ((boardTiles s.board).filter
    (fun t => tileTop t = some ⟨c, PieceKind.Flat⟩)).length

section Examples

/-- A white flat. -/
def pW : Piece := ⟨.White, .Flat⟩

/-- A black flat. -/
def pB : Piece := ⟨.Black, .Flat⟩

/-- 3×3 board: a complete white road down column 1, plus a single black
flat at the north-west corner.  The corner is scanned first by `check_win`
and its search inserts the adjacent white road square (0,1) into the shared
discovered set, after which the white road can no longer be traversed. -/
def ex2State : State :=
  { board := [[[pB], [pW], []], [[], [pW], []], [[], [pW], []]]
    size := 3
    player1 := ⟨.White, 10, 0⟩
    player2 := ⟨.Black, 10, 0⟩
    ptnLog := [] }

/-- 4×4 board with a complete white road down column 1, a complete black
road down column 3, and a black flat at (0,0) whose search poisons the white
road square (0,1) in the shared discovered set. -/
def ex6State : State :=
  { board := [[[pB], [pW], [], [pB]],
              [[], [pW], [], [pB]],
              [[], [pW], [], [pB]],
              [[], [pW], [], [pB]]]
    size := 4
    player1 := ⟨.White, 15, 0⟩
    player2 := ⟨.Black, 15, 0⟩
    ptnLog := [] }

/-- A fresh 5×5 state with one white flat already at (0,0). -/
def ex8State : State :=
  { stateNew 5 with board := updTile (stateNew 5).board (0, 0) (fun _ => [pW]) }

/-- 3×3 board with five white-flat tops and three black-flat tops. -/
def ex9State : State :=
  { board := [[[pW], [pW], [pW]], [[pW], [pW], [pB]], [[pB], [pB], []]]
    size := 3
    player1 := ⟨.White, 10, 0⟩
    player2 := ⟨.Black, 10, 0⟩
    ptnLog := [] }

/-- A 5×5 board with a lone white capstone at (1,1) and a black wall at
(1,2): the `Cc2`-then-crush scenario. -/
def crushBoard : Board :=
  updTile (updTile (stateNew 5).board (1, 1) (fun _ => ([⟨.White, .Cap⟩] : Tile)))
    (1, 2) (fun _ => ([⟨.Black, .Wall⟩] : Tile))

/-- The state holding `crushBoard`. -/
def exCrush : State := { stateNew 5 with board := crushBoard }

/-- A 5×5 board with a stack of two white flats at (2,2). -/
def exThrowState : State :=
  { stateNew 5 with board := updTile (stateNew 5).board (2, 2) (fun _ => [pW, pW]) }

/-- One place/place/throw/throw cycle on a size-3 board: White places at
(0,0) and throws it onto (0,1); Black places at (2,0) and throws it onto
(2,1).  Each cycle consumes one piece per player and frees both squares. -/
def c10cycle : List Move :=
  [.Place .Flat (0, 0) "", .Place .Flat (2, 0) "",
   .Throw (1, 0, 0) '>' [1] "", .Throw (1, 2, 0) '>' [1] ""]

/-- 39 legal moves on a size-3 game (two opening flats, nine cycles, one
final white placement) that drive White's piece counter to −1. -/
def c10moves : List Move :=
  [.Place .Flat (2, 2) "", .Place .Flat (0, 2) ""] ++
  (List.replicate 9 c10cycle).flatten ++ [.Place .Flat (0, 0) ""]

end Examples

set_option maxRecDepth 10000

/-! ### Board update lemmas -/

theorem updAt_get_eq (f : α → α) (l : List α) (i : Nat) :
    (updAt f l i)[i]? = (l[i]?).map f := by
  induction l generalizing i with
  | nil => cases i <;> simp [updAt]
  | cons x xs ih => cases i <;> simp [updAt, ih]

theorem updAt_get_ne (f : α → α) (l : List α) (i j : Nat) (h : i ≠ j) :
    (updAt f l i)[j]? = l[j]? := by
  induction l generalizing i j with
  | nil => cases i <;> simp [updAt]
  | cons x xs ih =>
    cases i with
    | zero =>
      cases j with
      | zero => exact absurd rfl h
      | succ j => simp [updAt]
    | succ i =>
      cases j with
      | zero => simp [updAt]
      | succ j => simpa [updAt] using ih i j (by omega)

theorem boardGet_updTile (b : Board) (p q : Nat × Nat) (f : Tile → Tile) :
    boardGet (updTile b p f) q.1 q.2 =
      if q = p then (boardGet b p.1 p.2).map f else boardGet b q.1 q.2 := by
  by_cases h1 : q.1 = p.1
  · by_cases h2 : q.2 = p.2
    · have hq : q = p := Prod.ext h1 h2
      subst hq
      rw [if_pos rfl]
      unfold boardGet updTile
      rw [updAt_get_eq]
      cases b[q.1]? with
      | none => rfl
      | some row => simp [updAt_get_eq]
    · have hq : q ≠ p := fun hc => h2 (by rw [hc])
      rw [if_neg hq]
      unfold boardGet updTile
      rw [h1, updAt_get_eq]
      cases b[p.1]? with
      | none => rfl
      | some row => simp [updAt_get_ne f row p.2 q.2 (fun hc => h2 hc.symm)]
  · have hq : q ≠ p := fun hc => h1 (by rw [hc])
    rw [if_neg hq]
    unfold boardGet updTile
    rw [updAt_get_ne _ _ _ _ (fun hc => h1 hc.symm)]

theorem boardGet_updTile_self (b : Board) (p : Nat × Nat) (f : Tile → Tile) :
    boardGet (updTile b p f) p.1 p.2 = (boardGet b p.1 p.2).map f := by
  simpa using boardGet_updTile b p p f

theorem boardGet_updTile_ne (b : Board) (p q : Nat × Nat) (f : Tile → Tile)
    (h : q ≠ p) : boardGet (updTile b p f) q.1 q.2 = boardGet b q.1 q.2 := by
  simp [boardGet_updTile, h]

/-! ### Atomicity of `make_move` -/

theorem makeMove_false_eq {s : State} {m : Move} {c : Color} {t : State}
    (h : makeMove s m c = some (false, t)) : t = s := by
  cases m with
  | Place k p ptn =>
    obtain ⟨a, b⟩ := p
    cases k <;> simp only [makeMove] at h <;>
      (repeat' split at h) <;> simp_all
  | Throw src dir vec ptn =>
    obtain ⟨n, r, cc⟩ := src
    simp only [makeMove] at h
    repeat' split at h
    all_goals simp_all

/-- C1: for every board state and every move, if `make_move` rejects the
move (returns `false`), the state — board grid, both players' counters and
the ptn log — is exactly what it was before the call. -/
theorem c1_rejected_move_unchanged (s : State) (m : Move) (c : Color) (t : State)
    (h : makeMove s m c = some (false, t)) : t = s :=
  makeMove_false_eq h

/-- Witness for C1: throwing from an empty square on a fresh 5×5 board is
rejected, and the state returned is the unchanged initial state. -/
theorem c1_rejected_move_unchanged_witness :
    makeMove (stateNew 5) (.Throw (1, 0, 0) '+' [1] "a1+") .White
        = some (false, stateNew 5) ∧
      stateNew 5 = stateNew 5 :=
  ⟨by decide,
   c1_rejected_move_unchanged (stateNew 5) (.Throw (1, 0, 0) '+' [1] "a1+")
     .White (stateNew 5) (by decide)⟩

/-! ### Road detection counterexamples (C2, C6) -/

/-- C2: `check_win` misses an existing road.  On `ex2State` a connected
white Flat path joins the north and south edges (column 1), yet `check_win`
reports `Neither` for either last mover: the black corner (0,0) is scanned
first and its search inserts the white square (0,1) into the shared
discovered set before the color comparison, so the later white search
cannot traverse it. -/
theorem c2_road_detection_misses_road :
    specRoadExists ex2State Color.White = true ∧
    checkWin ex2State 0 Color.White = Victory.Neither ∧
    checkWin ex2State 0 Color.Black = Victory.Neither := by decide

/-- C6: on `ex6State` both colors have complete north–south roads (white on
column 1, black on column 3), the last mover is White, yet `check_win`
returns `Black 0`: the poisoned discovered set hides the white road, so the
"both roads → last mover wins" arbitration never fires. -/
theorem c6_both_roads_not_last_mover :
    specRoadExists ex6State Color.White = true ∧
    specRoadExists ex6State Color.Black = true ∧
    checkWin ex6State 0 Color.White = Victory.Black 0 := by decide

/-! ### Bounds checking (C7) -/

/-- C7: the engine bounds check `RuleSet::out_of_bounds` classifies the
off-grid square (5,0) of a 5×5 board as on the grid (it uses `>`, unlike
`State::out_of_bounds`), and a placement or throw referring to that square
makes `make_move` panic on `get_tile(..).unwrap()` (modelled `none`)
instead of failing with an ordinary rejection. -/
theorem c7_bounds_check_off_by_one :
    ruleOutOfBounds (stateNew 5) (5, 0) = false ∧
    stateOutOfBounds (stateNew 5) 5 0 = true ∧
    makeMove (stateNew 5) (.Place .Flat (5, 0) "") .White = none ∧
    makeMove (stateNew 5) (.Throw (1, 5, 0) '+' [1] "") .White = none ∧
    ruleOutOfBounds (stateNew 5) (6, 0) = true := by decide

/-! ### Placement emptiness test (C8) -/

/-- C8: `State::is_empty` returns `true` for the occupied in-bounds square
(0,0) (it tests only that the board lookup succeeds), so
`MovementRules::place_move` accepts a placement onto the occupied square
and pushes a second piece instead of failing. -/
theorem c8_place_move_on_occupied_square :
    tileGet ex8State 0 0 = some [pW] ∧
    stateIsEmpty ex8State 0 0 = true ∧
    (placeMove ex8State pW 0 0).map (fun s => tileGet s 0 0)
        = some (some [pW, pW]) := by decide

/-! ### Flat-count resolution (C9) -/

theorem foldl_count_flat (c : Color) : ∀ (l : List Tile) (n : Nat),
    l.foldl (fun m t =>
      match tileTop t with
      | some p => if p = ⟨c, PieceKind.Flat⟩ then m + 1 else m
      | none => m) n
      = n + (l.filter (fun t => tileTop t = some ⟨c, PieceKind.Flat⟩)).length := by
  intro l
  induction l with
  | nil => simp
  | cons t ts ih =>
    intro n
    simp only [List.foldl_cons, List.filter_cons]
    rcases h : tileTop t with _ | p
    · simp [h, ih]
    · by_cases hp : p = (⟨c, PieceKind.Flat⟩ : Piece)
      · subst hp
        simp [h, ih]
        ring
      · simp [h, hp, ih]

theorem whiteFold_eq (l : List Tile) (n : Nat) :
    l.foldl (fun m t =>
      match tileTop t with
      | some ⟨Color.White, PieceKind.Flat⟩ => m + 1
      | _ => m) n
      = n + (l.filter
          (fun t => tileTop t = some ⟨Color.White, PieceKind.Flat⟩)).length := by
  rw [← foldl_count_flat Color.White l n]
  congr 1
  funext m t
  rcases h : tileTop t with _ | ⟨cl, k⟩
  · rfl
  · cases cl <;> cases k <;> simp

theorem blackFold_eq (l : List Tile) (n : Nat) :
    l.foldl (fun m t =>
      match tileTop t with
      | some ⟨Color.Black, PieceKind.Flat⟩ => m + 1
      | _ => m) n
      = n + (l.filter
          (fun t => tileTop t = some ⟨Color.Black, PieceKind.Flat⟩)).length := by
  rw [← foldl_count_flat Color.Black l n]
  congr 1
  funext m t
  rcases h : tileTop t with _ | ⟨cl, k⟩
  · rfl
  · cases cl <;> cases k <;> simp

theorem flatGame_formula (s : State) (komi : Nat) :
    flatGame s komi =
      (if flatCount s .Black + komi < flatCount s .White then
        Victory.White (flatCount s .White - komi)
      else if flatCount s .White < flatCount s .Black + komi then
        Victory.Black (flatCount s .Black + komi)
      else Victory.Draw) := by
  unfold flatGame flatCount
  rw [whiteFold_eq, blackFold_eq]
  simp [gt_iff_lt]

/-- C9 counterexample: with white flat count 5, black flat count 3 and
komi 1, `flat_game` awards the game to White (reported count
`white − komi = 4`); Black does not win with effective count 4 as the claim
states. -/
theorem c9_komi_one_counterexample :
    flatGame ex9State 1 = Victory.White 4 ∧
    flatGame ex9State 1 ≠ Victory.Black 4 := by decide

/-- C9 (amended): flat-count resolution compares black's flat count plus
komi against white's flat count, with a draw on equality; White's reported
winning count is `white − komi` and Black's is `black + komi`.  With counts
W=5, B=3: komi 2 gives a Draw, while komi 1 gives a White win reported as
4. -/
theorem c9_flat_count_resolution :
    (∀ (s : State) (komi : Nat),
      flatGame s komi =
        (if flatCount s .Black + komi < flatCount s .White then
          Victory.White (flatCount s .White - komi)
        else if flatCount s .White < flatCount s .Black + komi then
          Victory.Black (flatCount s .Black + komi)
        else Victory.Draw)) ∧
    flatGame ex9State 2 = Victory.Draw ∧
    flatGame ex9State 1 = Victory.White 4 :=
  ⟨flatGame_formula, by decide, by decide⟩

/-! ### Opening phase (C5) -/

theorem openingLegalMove_true {s : State} {m : Move}
    (h : openingLegalMove s m = some true) :
    ∃ a b ptn, m = Move.Place PieceKind.Flat (a, b) ptn ∧
      ruleOutOfBounds s (a, b) = false ∧ tileGet s a b = some [] := by
  cases m with
  | Throw src dir vec ptn => simp [openingLegalMove] at h
  | Place k p ptn =>
    obtain ⟨a, b⟩ := p
    cases k with
    | Flat =>
      refine ⟨a, b, ptn, rfl, ?_⟩
      simp only [openingLegalMove] at h
      split at h
      · simp at h
      · split at h
        · simp at h
        · rename_i t ht
          simp only [Option.some.injEq] at h
          refine ⟨by simp_all, ?_⟩
          rw [ht, List.isEmpty_iff.mp h]
    | Wall => simp [openingLegalMove] at h
    | Cap => simp [openingLegalMove] at h

theorem makeMove_flat_success {s : State} {a b : Nat} {ptn : String} {c : Color}
    (htg : tileGet s a b = some []) (hoob : ruleOutOfBounds s (a, b) = false) :
    makeMove s (.Place .Flat (a, b) ptn) c =
      some (true,
        { s with
          board := updTile s.board (a, b) (fun t0 => t0 ++ [⟨c, .Flat⟩])
          player1 := if c = .White then
              { s.player1 with pieces := s.player1.pieces - 1 } else s.player1
          player2 := if c = .Black then
              { s.player2 with pieces := s.player2.pieces - 1 } else s.player2
          ptnLog := s.ptnLog ++ [ptn] }) := by
  simp [makeMove, htg, hoob]

/-- C5: during the opening phase (ply 0 and ply 1), every accepted ply
reports `Victory.Neither`; any non-Flat placement and any throw is
rejected; and an accepted ply places exactly one flat whose color is Black
on ply 0 and White on ply 1, regardless of who is moving. -/
theorem c5_opening_phase (g : Game) (m : Move) (out : (Bool × Victory) × Game)
    (hp : g.ply < 2) (h : readMove g m = some out) :
    out.1.2 = Victory.Neither ∧
    (∀ k p ptn, m = Move.Place k p ptn → k ≠ PieceKind.Flat → out.1.1 = false) ∧
    (∀ src dir vec ptn, m = Move.Throw src dir vec ptn → out.1.1 = false) ∧
    (out.1.1 = true →
      ∃ p ptn, m = Move.Place PieceKind.Flat p ptn ∧
        tileGet out.2.state p.1 p.2 =
          some [⟨if g.ply = 0 then Color.Black else Color.White, PieceKind.Flat⟩]) := by
  unfold readMove at h
  rw [if_pos hp] at h
  cases hol : openingLegalMove g.state m with
  | none => rw [hol] at h; exact absurd h (by simp)
  | some legal =>
    rw [hol] at h
    cases legal with
    | false =>
      obtain rfl : ((false, Victory.Neither), g) = out := by
        simpa using h
      refine ⟨rfl, fun _ _ _ _ _ => rfl, fun _ _ _ _ _ => rfl, fun hc => ?_⟩
      simp at hc
    | true =>
      obtain ⟨a, b, ptn, rfl, hoob, htg⟩ := openingLegalMove_true hol
      rw [makeMove_flat_success htg hoob] at h
      obtain rfl :
          (((true, Victory.Neither),
            { g with
              state :=
                { g.state with
                  board := updTile g.state.board (a, b)
                    (fun t0 => t0 ++ [⟨openingColor g.ply, .Flat⟩])
                  player1 := if openingColor g.ply = .White then
                      { g.state.player1 with pieces := g.state.player1.pieces - 1 }
                    else g.state.player1
                  player2 := if openingColor g.ply = .Black then
                      { g.state.player2 with pieces := g.state.player2.pieces - 1 }
                    else g.state.player2
                  ptnLog := g.state.ptnLog ++ [ptn] }
              ply := g.ply + 1 }) : (Bool × Victory) × Game) = out := by
        simpa using h
      refine ⟨rfl, ?_, ?_, fun _ => ⟨(a, b), ptn, rfl, ?_⟩⟩
      · intro k p ptn0 hm hk
        cases hm
        exact absurd rfl hk
      · intro src dir vec ptn0 hm
        cases hm
      · show tileGet _ a b = _
        have hcol : openingColor g.ply =
            (if g.ply = 0 then Color.Black else Color.White) := by
          have h01 : g.ply = 0 ∨ g.ply = 1 := by omega
          rcases h01 with h0 | h1
          · simp [openingColor, h0]
          · rw [h1]; simp [openingColor]
        unfold tileGet
        show boardGet (updTile g.state.board (a, b) _) a b = _
        have := boardGet_updTile g.state.board (a, b) (a, b)
          (fun t0 => t0 ++ [⟨openingColor g.ply, .Flat⟩])
        simp only [if_pos rfl] at this
        rw [this]
        rw [show boardGet g.state.board a b = some [] from htg]
        simp [hcol]

/-- Witness for C5: the first ply of a fresh 5×5 game, a flat placement at
(0,0), is accepted and reports `Neither` (and, by the theorem, places a
black flat). -/
theorem c5_opening_phase_witness :
    ((readMove (gameNew 5 0) (.Place .Flat (0, 0) "a1")).map
      (fun o => o.1.2)) = some Victory.Neither := by
  cases hro : readMove (gameNew 5 0) (.Place .Flat (0, 0) "a1") with
  | none => exact absurd hro (by decide)
  | some out =>
    have hc := c5_opening_phase (gameNew 5 0) (.Place .Flat (0, 0) "a1") out
      (by decide) hro
    simp [hc.1]

/-! ### Throw acceptance inversion (shared by the throw claims) -/

theorem throw_accept_inv {s : State} {n r cc : Nat} {dir : Char} {vec : List Nat}
    {ptn : String} {c : Color} {s' : State}
    (h : makeMove s (.Throw (n, r, cc) dir vec ptn) c = some (true, s')) :
    ∃ srcT topP d lastT sum endP b2,
      tileGet s r cc = some srcT ∧
      tileTop srcT = some topP ∧
      c = topP.color ∧
      1 ≤ vec.length ∧
      throwDest r cc dir vec.length = .ok d ∧
      ruleOutOfBounds s d = false ∧
      tileGet s d.1 d.2 = some lastT ∧
      crushChk lastT topP vec = .ok () ∧
      walk s dir d (r, cc) vec 0 = .ok (sum, endP) ∧
      sum ≤ srcT.length ∧
      distrib dir (updTile s.board (r, cc) (fun _ => srcT.take (srcT.length - sum)))
        endP vec.reverse (srcT.drop (srcT.length - sum)) = some b2 ∧
      s' = { s with board := b2, ptnLog := s.ptnLog ++ [ptn] } := by
  simp only [makeMove] at h
  split at h
  · exact absurd h (by simp)
  · split at h
    next htg => exact absurd h (by simp)
    next srcT htg =>
      split at h
      · exact absurd h (by simp)
      next hvs =>
        split at h
        next htop => exact absurd h (by simp)
        next topP htop =>
          split at h
          · exact absurd h (by simp)
          next hcol =>
            split at h
            next hd => exact absurd h (by simp)
            next hd => exact absurd h (by simp)
            next d hd =>
              split at h
              · exact absurd h (by simp)
              next hoobd =>
                split at h
                next hlt => exact absurd h (by simp)
                next lastT hlt =>
                  split at h
                  next hcr => exact absurd h (by simp)
                  next hcr => exact absurd h (by simp)
                  next u hcr =>
                    split at h
                    next hw => exact absurd h (by simp)
                    next hw => exact absurd h (by simp)
                    next sum endP hw =>
                      split at h
                      · split at h
                        next b2 hdist =>
                          rename_i hsum
                          refine ⟨srcT, topP, d, lastT, sum, endP, b2,
                            htg, htop, not_not.mp hcol, ?_, hd, ?_, hlt, ?_,
                            hw, by omega, hdist, ?_⟩
                          · simp only [Bool.or_eq_true, not_or,
                              decide_eq_true_eq] at hvs
                            omega
                          · simpa using hoobd
                          · cases u; exact hcr
                          · cases h
                            rfl
                        next hdist => exact absurd h (by simp)
                      · exact absurd h (by simp)

/-! ### Landing-square rules for throws (C3) -/

theorem crushChk_facts {lastT : Tile} {topP : Piece} {vec : List Nat}
    (h : crushChk lastT topP vec = .ok ()) {piece : Piece}
    (ht : tileTop lastT = some piece) :
    piece.kind ≠ PieceKind.Cap ∧
    (piece.kind = PieceKind.Wall →
      topP.kind = PieceKind.Cap ∧ vec.getLast? = some 1) := by
  unfold crushChk at h
  split at h
  · rename_i he
    rw [List.isEmpty_iff.mp he] at ht
    simp [tileTop] at ht
  · simp only [ht] at h
    cases hk : piece.kind with
    | Flat => simp
    | Cap =>
      simp only [hk] at h
      exact absurd h (by simp)
    | Wall =>
      simp only [hk] at h
      refine ⟨by simp, fun _ => ?_⟩
      cases hsk : topP.kind with
      | Cap =>
        simp only [hsk] at h
        split at h
        · exact absurd h (by simp)
        · rename_i hlast
          exact ⟨rfl, not_not.mp hlast⟩
      | Flat =>
        simp only [hsk] at h
        exact absurd h (by simp)
      | Wall =>
        simp only [hsk] at h
        exact absurd h (by simp)

theorem walk_flat {s : State} {dir : Char} {d : Nat × Nat} (vs : List Nat) :
    ∀ (pos : Nat × Nat) (acc : Nat) (res : Nat × (Nat × Nat)),
      walk s dir d pos vs acc = .ok res →
      ∀ k, k < vs.length → ∀ q, iterF dir pos (k + 1) = .ok q → q ≠ d →
        ∀ piece, (tileGet s q.1 q.2).bind tileTop = some piece →
          piece.kind = PieceKind.Flat := by
  induction vs with
  | nil =>
    intro pos acc res hw k hk
    exact absurd hk (by simp)
  | cons v rest ih =>
    intro pos acc res hw k hk q hq hqd piece hpiece
    simp only [walk] at hw
    cases hst : stepF dir pos with
    | halt =>
      simp only [hst] at hw
      exact absurd hw (by simp)
    | rej =>
      simp only [hst] at hw
      exact absurd hw (by simp)
    | ok q1 =>
      simp only [hst] at hw
      have hq' : iterF dir q1 k = .ok q := by
        simpa only [iterF, hst] using hq
      by_cases hq1d : q1 = d
      · rw [if_pos hq1d] at hw
        split at hw
        · cases k with
          | zero =>
            have hqq : q1 = q := by simpa [iterF] using hq'
            exact absurd (hqq ▸ hq1d) hqd
          | succ k =>
            exact ih q1 (acc + v) res hw k (by simpa using hk) q hq' hqd piece hpiece
        · exact absurd hw (by simp)
      · rw [if_neg hq1d] at hw
        cases htg : tileGet s q1.1 q1.2 with
        | none =>
          simp only [htg] at hw
          exact absurd hw (by simp)
        | some t =>
          simp only [htg] at hw
          cases htt : tileTop t with
          | none =>
            simp only [htt] at hw
            split at hw
            · cases k with
              | zero =>
                have hqq : q1 = q := by simpa [iterF] using hq'
                rw [← hqq, htg] at hpiece
                simp [htt] at hpiece
              | succ k =>
                exact ih q1 (acc + v) res hw k (by simpa using hk) q hq' hqd piece hpiece
            · exact absurd hw (by simp)
          | some p =>
            simp only [htt] at hw
            cases hpk : p.kind with
            | Flat =>
              simp only [hpk] at hw
              split at hw
              · cases k with
                | zero =>
                  have hqq : q1 = q := by simpa [iterF] using hq'
                  rw [← hqq, htg] at hpiece
                  simp only [Option.some_bind, htt, Option.some.injEq] at hpiece
                  rw [← hpiece]
                  exact hpk
                | succ k =>
                  exact ih q1 (acc + v) res hw k (by simpa using hk) q hq' hqd piece hpiece
              · exact absurd hw (by simp)
            | Wall =>
              simp only [hpk] at hw
              exact absurd hw (by simp)
            | Cap =>
              simp only [hpk] at hw
              exact absurd hw (by simp)

/-- C3: if `make_move` accepts a throw, then (i) whenever the final landing
square was topped by a Wall, the source stack's top was a Cap and the final
drop count was exactly 1; (ii) the final landing square was never topped by
a Cap; and (iii) every intermediate square along the walk other than the
final square was topped by a Flat (or empty).  Equivalently: a Wall-topped
final square rejects everything but a lone-Cap drop, a Cap-topped final
square rejects every throw, and a non-Flat top on an intermediate square
rejects the throw. -/
theorem c3_throw_landing_rules (s : State) (n r cc : Nat) (dir : Char)
    (vec : List Nat) (ptn : String) (c : Color) (s' : State)
    (h : makeMove s (.Throw (n, r, cc) dir vec ptn) c = some (true, s')) :
    ∃ d, throwDest r cc dir vec.length = .ok d ∧
      (∀ piece, (tileGet s d.1 d.2).bind tileTop = some piece →
        piece.kind ≠ PieceKind.Cap) ∧
      (∀ piece, (tileGet s d.1 d.2).bind tileTop = some piece →
        piece.kind = PieceKind.Wall →
        (∃ sp, (tileGet s r cc).bind tileTop = some sp ∧
          sp.kind = PieceKind.Cap) ∧ vec.getLast? = some 1) ∧
      (∀ k, k < vec.length → ∀ q, iterF dir (r, cc) (k + 1) = .ok q → q ≠ d →
        ∀ piece, (tileGet s q.1 q.2).bind tileTop = some piece →
          piece.kind = PieceKind.Flat) := by
  obtain ⟨srcT, topP, d, lastT, sum, endP, b2, htg, htop, hcol, hvlen, hd, hoobd,
    hlt, hcr, hw, hsum, hdist, hs'⟩ := throw_accept_inv h
  refine ⟨d, hd, ?_, ?_, ?_⟩
  · intro piece hpiece
    rw [hlt] at hpiece
    simp only [Option.some_bind] at hpiece
    exact (crushChk_facts hcr hpiece).1
  · intro piece hpiece hwall
    rw [hlt] at hpiece
    simp only [Option.some_bind] at hpiece
    obtain ⟨hck, hlast⟩ := (crushChk_facts hcr hpiece).2 hwall
    exact ⟨⟨topP, by rw [htg]; simpa using htop, hck⟩, hlast⟩
  · exact walk_flat vec (r, cc) 0 (sum, endP) hw

/-- Witness for C3: on `exCrush` the throw `c2>` (the capstone at (1,1)
dropping alone onto the black wall at (1,2)) is accepted, and by the
theorem the source top really is a Cap and the final drop count is 1. -/
theorem c3_throw_landing_rules_witness :
    ((tileGet exCrush 1 1).bind tileTop).map Piece.kind = some PieceKind.Cap ∧
      List.getLast? [1] = some (1 : Nat) := by
  have hex : ∃ s', makeMove exCrush (.Throw (1, 1, 1) '>' [1] "c2>") .White
      = some (true, s') := by
    cases hmm : makeMove exCrush (.Throw (1, 1, 1) '>' [1] "c2>") .White with
    | none => exact absurd hmm (by decide)
    | some res =>
      obtain ⟨bb, s2⟩ := res
      cases bb with
      | false =>
        have hproj : (makeMove exCrush (.Throw (1, 1, 1) '>' [1] "c2>") .White).map
            Prod.fst = some true := by decide
        rw [hmm] at hproj
        simp at hproj
      | true => exact ⟨s2, rfl⟩
  obtain ⟨s', h⟩ := hex
  obtain ⟨d, hd, hA, hB, hC⟩ :=
    c3_throw_landing_rules exCrush 1 1 1 '>' [1] "c2>" .White s' h
  have hd2 : throwDest 1 1 '>' ([1] : List Nat).length = TRes.ok (1, 2) := by decide
  rw [hd2] at hd
  obtain rfl : (1, 2) = d := by simpa using hd
  obtain ⟨⟨sp, hsp, hspk⟩, hlast⟩ := hB ⟨.Black, .Wall⟩ (by decide) rfl
  refine ⟨?_, hlast⟩
  rw [hsp]
  simp [hspk]

/-! ### Walk/step bookkeeping for the throw execution (C4) -/

theorem walk_ok_props {s : State} {dir : Char} {d : Nat × Nat} :
    ∀ (vs : List Nat) (pos : Nat × Nat) (acc sum : Nat) (endP : Nat × Nat),
      walk s dir d pos vs acc = .ok (sum, endP) →
      sum = acc + vs.sum ∧ iterF dir pos vs.length = .ok endP := by
  intro vs
  induction vs with
  | nil =>
    intro pos acc sum endP hw
    simp only [walk, TRes.ok.injEq, Prod.mk.injEq] at hw
    obtain ⟨h1, h2⟩ := hw
    subst h1; subst h2
    exact ⟨by simp, rfl⟩
  | cons v rest ih =>
    intro pos acc sum endP hw
    simp only [walk] at hw
    cases hst : stepF dir pos with
    | halt =>
      rw [hst] at hw
      exact absurd hw (by simp)
    | rej =>
      rw [hst] at hw
      exact absurd hw (by simp)
    | ok q1 =>
      simp only [hst] at hw
      have step : walk s dir d q1 rest (acc + v) = .ok (sum, endP) →
          sum = acc + (v :: rest).sum ∧
            iterF dir pos (v :: rest).length = .ok endP := by
        intro hw'
        obtain ⟨h1, h2⟩ := ih q1 (acc + v) sum endP hw'
        refine ⟨by simp [h1]; ring, ?_⟩
        show iterF dir pos (rest.length + 1) = .ok endP
        simpa only [iterF, hst] using h2
      by_cases hq1d : q1 = d
      · rw [if_pos hq1d] at hw
        split at hw
        · exact step hw
        · exact absurd hw (by simp)
      · rw [if_neg hq1d] at hw
        cases htg : tileGet s q1.1 q1.2 with
        | none =>
          simp only [htg] at hw
          exact absurd hw (by simp)
        | some t =>
          simp only [htg] at hw
          cases htt : tileTop t with
          | none =>
            simp only [htt] at hw
            split at hw
            · exact step hw
            · exact absurd hw (by simp)
          | some p =>
            simp only [htt] at hw
            cases hpk : p.kind with
            | Flat =>
              simp only [hpk] at hw
              split at hw
              · exact step hw
              · exact absurd hw (by simp)
            | Wall =>
              simp only [hpk] at hw
              exact absurd hw (by simp)
            | Cap =>
              simp only [hpk] at hw
              exact absurd hw (by simp)

theorem iterF_le {dir : Char} :
    ∀ (n : Nat) (p e : Nat × Nat), iterF dir p n = .ok e →
      ∀ k, k ≤ n → ∃ q, iterF dir p k = .ok q := by
  intro n
  induction n with
  | zero =>
    intro p e _ k hk
    obtain rfl : k = 0 := by omega
    exact ⟨p, rfl⟩
  | succ n ih =>
    intro p e h k hk
    simp only [iterF] at h
    cases hst : stepF dir p with
    | halt =>
      rw [hst] at h
      exact absurd h (by simp)
    | rej =>
      rw [hst] at h
      exact absurd h (by simp)
    | ok q1 =>
      simp only [hst] at h
      cases k with
      | zero => exact ⟨p, rfl⟩
      | succ k =>
        obtain ⟨q, hq⟩ := ih q1 e h k (by omega)
        exact ⟨q, by simpa only [iterF, hst] using hq⟩

theorem iterF_last {dir : Char} :
    ∀ (n : Nat) (p e q : Nat × Nat), iterF dir p (n + 1) = .ok e →
      iterF dir p n = .ok q → stepF dir q = .ok e := by
  intro n
  induction n with
  | zero =>
    intro p e q h1 h2
    obtain rfl : p = q := by simpa [iterF] using h2
    simp only [iterF] at h1
    cases hst : stepF dir p with
    | halt =>
      rw [hst] at h1
      exact h1
    | rej =>
      rw [hst] at h1
      exact h1
    | ok q1 =>
      simp only [hst] at h1
      obtain rfl : q1 = e := by simpa [iterF] using h1
      rfl
  | succ n ih =>
    intro p e q h1 h2
    simp only [iterF] at h1 h2
    cases hst : stepF dir p with
    | halt =>
      rw [hst] at h1
      exact absurd h1 (by simp)
    | rej =>
      rw [hst] at h1
      exact absurd h1 (by simp)
    | ok q1 =>
      simp only [hst] at h1 h2
      exact ih q1 e q h1 h2

theorem stepF_stepB {dir : Char} {p q : Nat × Nat}
    (h : stepF dir p = .ok q) (hb : stepB dir q ≠ none) : stepB dir q = some p := by
  unfold stepF at h
  split at h
  · -- '+'
    split at h
    · obtain rfl : (p.1 + 1, p.2) = q := by simpa using h
      show (if 1 ≤ p.1 + 1 then some (p.1 + 1 - 1, p.2) else none) = some p
      simp
    · exact absurd h (by simp)
  · -- '-'
    split at h
    · rename_i hp1
      obtain rfl : (p.1 - 1, p.2) = q := by simpa using h
      have hb2 : (if p.1 - 1 + 1 ≤ 255 then some (p.1 - 1 + 1, p.2) else none) ≠ none := hb
      show (if p.1 - 1 + 1 ≤ 255 then some (p.1 - 1 + 1, p.2) else none) = some p
      split
      · refine congrArg some (Prod.ext ?_ rfl)
        simp
        omega
      · rename_i hc
        rw [if_neg hc] at hb2
        exact absurd rfl hb2
    · exact absurd h (by simp)
  · -- '<'
    split at h
    · rename_i hp2
      obtain rfl : (p.1, p.2 - 1) = q := by simpa using h
      have hb2 : (if p.2 - 1 + 1 ≤ 255 then some (p.1, p.2 - 1 + 1) else none) ≠ none := hb
      show (if p.2 - 1 + 1 ≤ 255 then some (p.1, p.2 - 1 + 1) else none) = some p
      split
      · refine congrArg some (Prod.ext rfl ?_)
        simp
        omega
      · rename_i hc
        rw [if_neg hc] at hb2
        exact absurd rfl hb2
    · exact absurd h (by simp)
  · -- '>'
    split at h
    · obtain rfl : (p.1, p.2 + 1) = q := by simpa using h
      show (if 1 ≤ p.2 + 1 then some (p.1, p.2 + 1 - 1) else none) = some p
      simp
    · exact absurd h (by simp)
  · exact absurd h (by simp)

theorem stepF_plus (p : Nat × Nat) :
    stepF '+' p = if p.1 + 1 ≤ 255 then .ok (p.1 + 1, p.2) else .halt := rfl

theorem stepF_minus (p : Nat × Nat) :
    stepF '-' p = if 1 ≤ p.1 then .ok (p.1 - 1, p.2) else .halt := rfl

theorem stepF_west (p : Nat × Nat) :
    stepF '<' p = if 1 ≤ p.2 then .ok (p.1, p.2 - 1) else .halt := rfl

theorem stepF_east (p : Nat × Nat) :
    stepF '>' p = if p.2 + 1 ≤ 255 then .ok (p.1, p.2 + 1) else .halt := rfl

theorem iterF_coord_plus : ∀ (k : Nat) (p q : Nat × Nat),
    iterF '+' p k = .ok q → q = (p.1 + k, p.2) := by
  intro k
  induction k with
  | zero =>
    intro p q h
    obtain rfl : p = q := by simpa [iterF] using h
    simp
  | succ k ih =>
    intro p q h
    simp only [iterF] at h
    by_cases hle : p.1 + 1 ≤ 255
    · rw [stepF_plus, if_pos hle] at h
      have h2 : iterF '+' (p.1 + 1, p.2) k = TRes.ok q := h
      rw [ih (p.1 + 1, p.2) q h2]
      refine Prod.ext ?_ rfl
      simp
      omega
    · rw [stepF_plus, if_neg hle] at h
      have h2 : (TRes.halt : TRes (Nat × Nat)) = TRes.ok q := h
      exact absurd h2 (by simp)

theorem iterF_coord_minus : ∀ (k : Nat) (p q : Nat × Nat),
    iterF '-' p k = .ok q → k ≤ p.1 ∧ q = (p.1 - k, p.2) := by
  intro k
  induction k with
  | zero =>
    intro p q h
    obtain rfl : p = q := by simpa [iterF] using h
    simp
  | succ k ih =>
    intro p q h
    simp only [iterF] at h
    by_cases hp1 : 1 ≤ p.1
    · rw [stepF_minus, if_pos hp1] at h
      have h2 : iterF '-' (p.1 - 1, p.2) k = TRes.ok q := h
      obtain ⟨hk, hq⟩ := ih (p.1 - 1, p.2) q h2
      simp only at hk
      refine ⟨by omega, ?_⟩
      rw [hq]
      refine Prod.ext ?_ rfl
      simp
      omega
    · rw [stepF_minus, if_neg hp1] at h
      have h2 : (TRes.halt : TRes (Nat × Nat)) = TRes.ok q := h
      exact absurd h2 (by simp)

theorem iterF_coord_west : ∀ (k : Nat) (p q : Nat × Nat),
    iterF '<' p k = .ok q → k ≤ p.2 ∧ q = (p.1, p.2 - k) := by
  intro k
  induction k with
  | zero =>
    intro p q h
    obtain rfl : p = q := by simpa [iterF] using h
    simp
  | succ k ih =>
    intro p q h
    simp only [iterF] at h
    by_cases hp2 : 1 ≤ p.2
    · rw [stepF_west, if_pos hp2] at h
      have h2 : iterF '<' (p.1, p.2 - 1) k = TRes.ok q := h
      obtain ⟨hk, hq⟩ := ih (p.1, p.2 - 1) q h2
      simp only at hk
      refine ⟨by omega, ?_⟩
      rw [hq]
      refine Prod.ext rfl ?_
      simp
      omega
    · rw [stepF_west, if_neg hp2] at h
      have h2 : (TRes.halt : TRes (Nat × Nat)) = TRes.ok q := h
      exact absurd h2 (by simp)

theorem iterF_coord_east : ∀ (k : Nat) (p q : Nat × Nat),
    iterF '>' p k = .ok q → q = (p.1, p.2 + k) := by
  intro k
  induction k with
  | zero =>
    intro p q h
    obtain rfl : p = q := by simpa [iterF] using h
    simp
  | succ k ih =>
    intro p q h
    simp only [iterF] at h
    by_cases hle : p.2 + 1 ≤ 255
    · rw [stepF_east, if_pos hle] at h
      have h2 : iterF '>' (p.1, p.2 + 1) k = TRes.ok q := h
      rw [ih (p.1, p.2 + 1) q h2]
      refine Prod.ext rfl ?_
      simp
      omega
    · rw [stepF_east, if_neg hle] at h
      have h2 : (TRes.halt : TRes (Nat × Nat)) = TRes.ok q := h
      exact absurd h2 (by simp)

theorem throwDest_dir {r c len : Nat} {dir : Char} {d : Nat × Nat}
    (h : throwDest r c dir len = .ok d) :
    dir = '+' ∨ dir = '-' ∨ dir = '<' ∨ dir = '>' := by
  unfold throwDest at h
  split at h
  · exact Or.inl rfl
  · exact Or.inr (Or.inl rfl)
  · exact Or.inr (Or.inr (Or.inl rfl))
  · exact Or.inr (Or.inr (Or.inr rfl))
  · exact absurd h (by simp)

theorem iterF_inj {dir : Char}
    (hdir : dir = '+' ∨ dir = '-' ∨ dir = '<' ∨ dir = '>')
    {p : Nat × Nat} {j k : Nat} {qj qk : Nat × Nat}
    (hj : iterF dir p j = .ok qj) (hk : iterF dir p k = .ok qk)
    (hne : j ≠ k) : qj ≠ qk := by
  rcases hdir with rfl | rfl | rfl | rfl
  · have h1 := iterF_coord_plus j p qj hj
    have h2 := iterF_coord_plus k p qk hk
    rw [h1, h2]
    intro hc
    rw [Prod.mk.injEq] at hc
    omega
  · obtain ⟨hb1, h1⟩ := iterF_coord_minus j p qj hj
    obtain ⟨hb2, h2⟩ := iterF_coord_minus k p qk hk
    rw [h1, h2]
    intro hc
    rw [Prod.mk.injEq] at hc
    omega
  · obtain ⟨hb1, h1⟩ := iterF_coord_west j p qj hj
    obtain ⟨hb2, h2⟩ := iterF_coord_west k p qk hk
    rw [h1, h2]
    intro hc
    rw [Prod.mk.injEq] at hc
    omega
  · have h1 := iterF_coord_east j p qj hj
    have h2 := iterF_coord_east k p qk hk
    rw [h1, h2]
    intro hc
    rw [Prod.mk.injEq] at hc
    omega

theorem iterB_iterF {dir : Char} : ∀ (j len : Nat) (p0 e : Nat × Nat),
    j ≤ len →
    iterF dir p0 len = .ok e →
    iterB dir e j ≠ none →
    ∃ q, iterF dir p0 (len - j) = .ok q ∧ iterB dir e j = some q := by
  intro j
  induction j with
  | zero =>
    intro len p0 e _ hF _
    exact ⟨e, by simpa using hF, rfl⟩
  | succ j ih =>
    intro len p0 e hj hF hB
    obtain ⟨len', rfl⟩ : ∃ l, len = l + 1 := ⟨len - 1, by omega⟩
    obtain ⟨q', hq'⟩ := iterF_le (len' + 1) p0 e hF len' (by omega)
    have hstep := iterF_last len' p0 e q' hF hq'
    simp only [iterB] at hB ⊢
    cases hsb : stepB dir e with
    | none => exact absurd (by rw [hsb]) hB
    | some e1 =>
      have hB' : iterB dir e1 j ≠ none := by
        intro hc
        apply hB
        rw [hsb]
        exact hc
      have he1 : e1 = q' := by
        have hinv := stepF_stepB hstep (by rw [hsb]; simp)
        rw [hsb] at hinv
        injection hinv
      subst he1
      obtain ⟨q, hq1, hq2⟩ := ih len' p0 e1 (by omega) hq' hB'
      refine ⟨q, ?_, ?_⟩
      · have harith : len' + 1 - (j + 1) = len' - j := by omega
        rw [harith]
        exact hq1
      · show iterB dir e1 j = some q
        exact hq2

theorem distrib_iterB_some {dir : Char} : ∀ (rv : List Nat) (b : Board)
    (pos : Nat × Nat) (sv : List Piece) (b' : Board),
    distrib dir b pos rv sv = some b' →
    ∀ j, j < rv.length → iterB dir pos j ≠ none := by
  intro rv
  induction rv with
  | nil =>
    intro b pos sv b' _ j hj
    exact absurd hj (by simp)
  | cons v rest ih =>
    intro b pos sv b' h j hj
    simp only [distrib] at h
    split at h
    · cases hsb : stepB dir pos with
      | none =>
        rw [hsb] at h
        exact absurd h (by simp)
      | some q1 =>
        rw [hsb] at h
        have h2 : distrib dir
            (updTile b pos (fun t => t ++ sv.drop (sv.length - v))) q1 rest
            (sv.take (sv.length - v)) = some b' := h
        cases j with
        | zero => simp [iterB]
        | succ j =>
          intro hc
          simp only [iterB, hsb] at hc
          exact ih _ q1 _ b' h2 j (by simpa using hj) hc
    · exact absurd h (by simp)

theorem distrib_untouched {dir : Char} : ∀ (rv : List Nat) (b : Board)
    (pos : Nat × Nat) (sv : List Piece) (b' : Board),
    distrib dir b pos rv sv = some b' →
    ∀ q : Nat × Nat, (∀ j, j < rv.length → iterB dir pos j ≠ some q) →
      boardGet b' q.1 q.2 = boardGet b q.1 q.2 := by
  intro rv
  induction rv with
  | nil =>
    intro b pos sv b' h q _
    obtain rfl : b = b' := by simpa [distrib] using h
    rfl
  | cons v rest ih =>
    intro b pos sv b' h q hq
    simp only [distrib] at h
    split at h
    · cases hsb : stepB dir pos with
      | none =>
        rw [hsb] at h
        exact absurd h (by simp)
      | some q1 =>
        rw [hsb] at h
        have h2 : distrib dir
            (updTile b pos (fun t => t ++ sv.drop (sv.length - v))) q1 rest
            (sv.take (sv.length - v)) = some b' := h
        have hq' : ∀ j, j < rest.length → iterB dir q1 j ≠ some q := by
          intro j hj hc
          have hstep : iterB dir pos (j + 1) = some q := by
            simp only [iterB, hsb]
            exact hc
          exact hq (j + 1) (by simpa using hj) hstep
        rw [ih _ q1 _ b' h2 q hq']
        have hqpos : q ≠ pos := by
          intro hc
          exact hq 0 (by simp) (by rw [hc]; rfl)
        exact boardGet_updTile_ne b pos q _ hqpos
    · exact absurd h (by simp)

theorem chunkOf_zero (v : Nat) (rest : List Nat) (sv : List Piece)
    (hv : v ≤ sv.length) :
    chunkOf (v :: rest) sv 0 = sv.drop (sv.length - v) := by
  unfold chunkOf
  have h1 : ((v :: rest).take 1).sum = v := by simp
  have h2 : (v :: rest).getD 0 0 = v := by simp
  rw [h1, h2]
  apply List.take_of_length_le
  rw [List.length_drop]
  omega

theorem chunkOf_succ (v : Nat) (rest : List Nat) (sv : List Piece) (j : Nat)
    (hj : j < rest.length) (hsum : v + rest.sum ≤ sv.length) :
    chunkOf rest (sv.take (sv.length - v)) j = chunkOf (v :: rest) sv (j + 1) := by
  unfold chunkOf
  have hA_le : (rest.take (j + 1)).sum ≤ rest.sum := by
    conv_rhs => rw [← List.take_append_drop (j + 1) rest]
    rw [List.sum_append]
    omega
  have hg_le : rest.getD j 0 ≤ (rest.take (j + 1)).sum := by
    rw [List.sum_take_succ rest j hj, List.getD_eq_getElem rest 0 hj]
    omega
  have hlen : (sv.take (sv.length - v)).length = sv.length - v := by
    rw [List.length_take]
    omega
  rw [hlen]
  have htake : (v :: rest).take (j + 1 + 1) = v :: rest.take (j + 1) := by
    simp [List.take_cons]
  rw [htake]
  have hgd : (v :: rest).getD (j + 1) 0 = rest.getD j 0 := List.getD_cons_succ
  rw [hgd]
  rw [List.drop_take]
  have e1 : sv.length - v - ((rest.take (j + 1)).sum) =
      sv.length - (v :: rest.take (j + 1)).sum := by
    simp only [List.sum_cons]
    omega
  have e2 : sv.length - v - (sv.length - v - (rest.take (j + 1)).sum) =
      (rest.take (j + 1)).sum := by omega
  rw [e2, ← e1]
  rw [List.take_take]
  rw [min_eq_left hg_le]

theorem distrib_chunks {dir : Char} : ∀ (rv : List Nat) (b : Board)
    (pos : Nat × Nat) (sv : List Piece) (b' : Board),
    distrib dir b pos rv sv = some b' →
    rv.sum ≤ sv.length →
    (∀ i j, i < rv.length → j < rv.length → i ≠ j →
      iterB dir pos i ≠ iterB dir pos j) →
    ∀ j, j < rv.length → ∃ pj, iterB dir pos j = some pj ∧
      boardGet b' pj.1 pj.2 =
        (boardGet b pj.1 pj.2).map (fun t => t ++ chunkOf rv sv j) := by
  intro rv
  induction rv with
  | nil =>
    intro b pos sv b' _ _ _ j hj
    exact absurd hj (by simp)
  | cons v rest ih =>
    intro b pos sv b' h hsum hdist j hj
    simp only [distrib] at h
    split at h
    case isFalse => exact absurd h (by simp)
    case isTrue hv =>
      cases hsb : stepB dir pos with
      | none =>
        rw [hsb] at h
        exact absurd h (by simp)
      | some q1 =>
        rw [hsb] at h
        have h2 : distrib dir
            (updTile b pos (fun t => t ++ sv.drop (sv.length - v))) q1 rest
            (sv.take (sv.length - v)) = some b' := h
        cases j with
        | zero =>
          refine ⟨pos, rfl, ?_⟩
          have hnot : ∀ jj, jj < rest.length → iterB dir q1 jj ≠ some pos := by
            intro jj hjj hc
            apply hdist 0 (jj + 1) (by simp) (by simpa using hjj) (by omega)
            show iterB dir pos 0 = iterB dir pos (jj + 1)
            rw [show iterB dir pos 0 = some pos from rfl]
            rw [show iterB dir pos (jj + 1) = iterB dir q1 jj from by
              simp only [iterB, hsb]]
            exact hc.symm
          have hun := distrib_untouched rest _ q1 _ b' h2 pos hnot
          rw [hun]
          have hupd := boardGet_updTile b pos pos
            (fun t => t ++ sv.drop (sv.length - v))
          rw [if_pos rfl] at hupd
          rw [hupd]
          rw [chunkOf_zero v rest sv hv]
        | succ j =>
          have hj' : j < rest.length := by simpa using hj
          have hdist' : ∀ i2 j2, i2 < rest.length → j2 < rest.length → i2 ≠ j2 →
              iterB dir q1 i2 ≠ iterB dir q1 j2 := by
            intro i2 j2 hi2 hj2 hne hc
            apply hdist (i2 + 1) (j2 + 1) (by simpa using hi2)
              (by simpa using hj2) (by omega)
            show iterB dir pos (i2 + 1) = iterB dir pos (j2 + 1)
            rw [show iterB dir pos (i2 + 1) = iterB dir q1 i2 from by
              simp only [iterB, hsb]]
            rw [show iterB dir pos (j2 + 1) = iterB dir q1 j2 from by
              simp only [iterB, hsb]]
            exact hc
          have hsum' : rest.sum ≤ (sv.take (sv.length - v)).length := by
            rw [List.length_take]
            simp only [List.sum_cons] at hsum
            omega
          obtain ⟨pj, hpj, hbj⟩ := ih _ q1 _ b' h2 hsum' hdist' j hj'
          refine ⟨pj, ?_, ?_⟩
          · rw [show iterB dir pos (j + 1) = iterB dir q1 j from by
              simp only [iterB, hsb]]
            exact hpj
          · rw [hbj]
            have hnepos : pj ≠ pos := by
              intro hc
              apply hdist 0 (j + 1) (by simp) (by simpa using hj') (by omega)
              show iterB dir pos 0 = iterB dir pos (j + 1)
              rw [show iterB dir pos 0 = some pos from rfl]
              rw [show iterB dir pos (j + 1) = iterB dir q1 j from by
                simp only [iterB, hsb]]
              rw [hpj, hc]
            rw [boardGet_updTile_ne b pos pj _ hnepos]
            rw [chunkOf_succ v rest sv j hj'
              (by simp only [List.sum_cons] at hsum; omega)]

theorem chunkOf_reverse (vec : List Nat) (moved : List Piece) (i : Nat)
    (hi : i < vec.length) (hlen : moved.length = vec.sum) :
    chunkOf vec.reverse moved (vec.length - 1 - i) =
      (moved.drop ((vec.take i).sum)).take (vec.getD i 0) := by
  unfold chunkOf
  have hL : vec.length - 1 - i + 1 = vec.length - i := by omega
  rw [hL]
  have htk : vec.reverse.take (vec.length - i) = (vec.drop i).reverse := by
    rw [List.take_reverse]
    have e : vec.length - (vec.length - i) = i := by omega
    rw [e]
  rw [htk, List.sum_reverse]
  have hsplit : (vec.take i).sum + (vec.drop i).sum = vec.sum := by
    rw [← List.sum_append, List.take_append_drop]
  have htakele : (vec.take i).sum ≤ vec.sum := by omega
  have e1 : moved.length - (vec.drop i).sum = (vec.take i).sum := by
    rw [hlen]
    omega
  rw [e1]
  have hgd : vec.reverse.getD (vec.length - 1 - i) 0 = vec.getD i 0 := by
    have h1 : vec.length - 1 - i < vec.reverse.length := by simp; omega
    rw [List.getD_eq_getElem _ _ h1, List.getD_eq_getElem _ _ hi]
    rw [List.getElem_reverse]
    congr 1
    omega
  rw [hgd]

/-- C4: if `make_move` accepts a throw, then exactly the top `sum(drops)`
pieces are split off the source stack (the source keeps its lower part),
and the square `i+1` steps from the source along the throw direction gains
exactly `drops[i]` pieces on top — the contiguous slice of the moved
pieces starting at offset `sum(drops[0..i])`, in their original
bottom-to-top order. -/
theorem c4_throw_execution (s : State) (n r cc : Nat) (dir : Char)
    (vec : List Nat) (ptn : String) (c : Color) (s' : State)
    (h : makeMove s (.Throw (n, r, cc) dir vec ptn) c = some (true, s')) :
    ∃ srcT, tileGet s r cc = some srcT ∧
      vec.sum ≤ srcT.length ∧
      tileGet s' r cc = some (srcT.take (srcT.length - vec.sum)) ∧
      ∀ i, i < vec.length → ∃ q, iterF dir (r, cc) (i + 1) = .ok q ∧
        tileGet s' q.1 q.2 = (tileGet s q.1 q.2).map
          (fun t => t ++ ((srcT.drop (srcT.length - vec.sum)).drop
            ((vec.take i).sum)).take (vec.getD i 0)) := by
  obtain ⟨srcT, topP, d, lastT, sum, endP, b2, htg, htop, hcol, hvlen, hd, hoobd,
    hlt, hcr, hw, hsum, hdistr, hs'⟩ := throw_accept_inv h
  obtain ⟨hsumeq, hendP⟩ := walk_ok_props vec (r, cc) 0 sum endP hw
  have hsum0 : sum = vec.sum := by omega
  subst hsum0
  have hdir := throwDest_dir hd
  have hrvlen : vec.reverse.length = vec.length := by simp
  have hrvsum : vec.reverse.sum = vec.sum := List.sum_reverse vec
  have hmovedlen : (srcT.drop (srcT.length - vec.sum)).length = vec.sum := by
    rw [List.length_drop]
    omega
  have hiterB := distrib_iterB_some vec.reverse _ endP
    (srcT.drop (srcT.length - vec.sum)) b2 hdistr
  have hcorr : ∀ j, j < vec.length → ∃ q, iterF dir (r, cc) (vec.length - j) = .ok q ∧
      iterB dir endP j = some q := by
    intro j hj
    exact iterB_iterF j vec.length (r, cc) endP (by omega) hendP
      (hiterB j (by rw [hrvlen]; omega))
  have hdistinct : ∀ i j, i < vec.reverse.length → j < vec.reverse.length → i ≠ j →
      iterB dir endP i ≠ iterB dir endP j := by
    intro i j hi hj hne hc
    rw [hrvlen] at hi hj
    obtain ⟨qi, hqi, hbi⟩ := hcorr i hi
    obtain ⟨qj, hqj, hbj⟩ := hcorr j hj
    rw [hbi, hbj] at hc
    obtain rfl : qi = qj := by injection hc
    exact iterF_inj hdir hqi hqj (by omega) rfl
  have hch := distrib_chunks vec.reverse _ endP
    (srcT.drop (srcT.length - vec.sum)) b2 hdistr
    (by rw [hrvsum, hmovedlen]) hdistinct
  refine ⟨srcT, htg, hsum, ?_, ?_⟩
  · have hsrc_not : ∀ j, j < vec.reverse.length →
        iterB dir endP j ≠ some (r, cc) := by
      intro j hj hc
      rw [hrvlen] at hj
      obtain ⟨qj, hqj, hbj⟩ := hcorr j hj
      rw [hbj] at hc
      obtain rfl : qj = (r, cc) := by injection hc
      exact iterF_inj hdir hqj
        (show iterF dir (r, cc) 0 = .ok (r, cc) from rfl) (by omega) rfl
    have hb2src := distrib_untouched vec.reverse _ endP
      (srcT.drop (srcT.length - vec.sum)) b2 hdistr (r, cc) hsrc_not
    have hb1 := boardGet_updTile s.board (r, cc) (r, cc)
      (fun _ => srcT.take (srcT.length - vec.sum))
    rw [if_pos rfl] at hb1
    rw [hs']
    show boardGet b2 r cc = _
    dsimp only at hb2src hb1
    rw [hb2src, hb1]
    rw [show boardGet s.board r cc = some srcT from htg]
    rfl
  · intro i hi
    have hj : vec.length - 1 - i < vec.reverse.length := by rw [hrvlen]; omega
    obtain ⟨pj, hpj, hbj⟩ := hch (vec.length - 1 - i) hj
    obtain ⟨qj, hqj, hbj2⟩ := hcorr (vec.length - 1 - i) (by omega)
    obtain rfl : pj = qj := by
      rw [hpj] at hbj2
      injection hbj2
    have hLj : vec.length - (vec.length - 1 - i) = i + 1 := by omega
    rw [hLj] at hqj
    refine ⟨pj, hqj, ?_⟩
    have hpj_ne : pj ≠ (r, cc) := iterF_inj hdir hqj
      (show iterF dir (r, cc) 0 = .ok (r, cc) from rfl) (by omega)
    have hb1q := boardGet_updTile_ne s.board (r, cc) pj
      (fun _ => srcT.take (srcT.length - vec.sum)) hpj_ne
    have hchunk := chunkOf_reverse vec (srcT.drop (srcT.length - vec.sum)) i hi
      hmovedlen
    rw [hs']
    show boardGet b2 pj.1 pj.2 = _
    rw [hbj, hb1q, hchunk]
    rfl

/-- Witness for C4: on `exThrowState` the throw `2c3+11` (two pieces, one
dropped on each of the next two squares up) is accepted, and by the theorem
the source square ends empty. -/
theorem c4_throw_execution_witness :
    ((makeMove exThrowState (.Throw (2, 2, 2) '+' [1, 1] "2c3+11") .White).map
      (fun res => tileGet res.2 2 2)) = some (some []) := by
  cases hmm : makeMove exThrowState (.Throw (2, 2, 2) '+' [1, 1] "2c3+11") .White with
  | none => exact absurd hmm (by decide)
  | some res =>
    obtain ⟨bb, s2⟩ := res
    cases bb with
    | false =>
      have hproj : (makeMove exThrowState
          (.Throw (2, 2, 2) '+' [1, 1] "2c3+11") .White).map Prod.fst
          = some true := by decide
      rw [hmm] at hproj
      simp at hproj
    | true =>
      obtain ⟨srcT, htg, hsum, hsrc, hdest⟩ :=
        c4_throw_execution exThrowState 2 2 2 '+' [1, 1] "2c3+11" .White s2 hmm
      have htg2 : tileGet exThrowState 2 2 = some [pW, pW] := by decide
      rw [htg2] at htg
      obtain rfl : srcT = [pW, pW] := by
        injection htg with h
        exact h.symm
      simp only [Option.map_some']
      rw [hsrc]
      norm_num

/-! ### Player counters (C10) -/

theorem makeMove_counters {s : State} {m : Move} {c : Color} {b : Bool} {t : State}
    (h : makeMove s m c = some (b, t)) :
    s.player1.pieces - 1 ≤ t.player1.pieces ∧ t.player1.pieces ≤ s.player1.pieces ∧
    s.player2.pieces - 1 ≤ t.player2.pieces ∧ t.player2.pieces ≤ s.player2.pieces ∧
    s.player1.caps - 1 ≤ t.player1.caps ∧ t.player1.caps ≤ s.player1.caps ∧
    s.player2.caps - 1 ≤ t.player2.caps ∧ t.player2.caps ≤ s.player2.caps ∧
    (t.player1.caps < s.player1.caps → 0 < s.player1.caps) ∧
    (t.player2.caps < s.player2.caps → 0 < s.player2.caps) := by
  cases m with
  | Place k p ptn =>
    obtain ⟨a, b2⟩ := p
    cases k <;> cases c <;> simp only [makeMove] at h <;>
      (repeat' split at h) <;>
      (try (exact Option.noConfusion h)) <;>
      (rw [Option.some.injEq, Prod.mk.injEq] at h
       obtain ⟨rfl, rfl⟩ := h
       simp
       try omega
       try (simp_all [currentPlayer])
       try omega)
  | Throw src dir vec ptn =>
    obtain ⟨n, r, cc⟩ := src
    simp only [makeMove] at h
    repeat' split at h
    all_goals try (exact Option.noConfusion h)
    all_goals
      (rw [Option.some.injEq, Prod.mk.injEq] at h
       obtain ⟨rfl, rfl⟩ := h
       simp
       try omega)

theorem makeMove_throw_players {s : State} {src : Nat × Nat × Nat} {dir : Char}
    {vec : List Nat} {ptn : String} {c : Color} {b : Bool} {t : State}
    (h : makeMove s (.Throw src dir vec ptn) c = some (b, t)) :
    t.player1 = s.player1 ∧ t.player2 = s.player2 := by
  obtain ⟨n, r, cc⟩ := src
  simp only [makeMove] at h
  repeat' split at h
  all_goals try (exact Option.noConfusion h)
  all_goals
    (rw [Option.some.injEq, Prod.mk.injEq] at h
     obtain ⟨rfl, rfl⟩ := h
     simp)

theorem flatGame_ne_neither (s : State) (k : Nat) : flatGame s k ≠ .Neither := by
  simp only [flatGame]
  split
  · simp
  · split <;> simp

theorem roadLoop_error_ne_neither {s : State} {lm : Color} {fuel : Nat} :
    ∀ (cells set : List (Nat × Nat)) (wr br : Bool) (v : Victory),
      roadLoop s lm fuel cells set wr br = .error v → v ≠ .Neither := by
  intro cells
  induction cells with
  | nil =>
    intro set wr br v h
    simp [roadLoop] at h
  | cons p rest ih =>
    intro set wr br v h
    simp only [roadLoop] at h
    split at h
    · exact ih _ _ _ _ h
    · split at h
      · exact ih _ _ _ _ h
      · split at h
        · exact ih _ _ _ _ h
        · split at h
          · exact ih _ _ _ _ h
          · split at h
            · split at h
              · have hv : (if lm = Color.White then Victory.White 0
                    else Victory.Black 0) = v := by
                  injection h
                rw [← hv]
                split <;> simp
              · exact ih _ _ _ _ h
            · exact ih _ _ _ _ h

theorem checkWin_neither {s : State} {k : Nat} {lm : Color}
    (h : checkWin s k lm = .Neither) :
    s.player1.pieces ≠ 0 ∧ s.player2.pieces ≠ 0 := by
  unfold checkWin at h
  split at h
  next v heq => exact absurd h (roadLoop_error_ne_neither _ _ _ _ _ heq)
  next set wr br heq =>
    split at h
    · exact absurd h (by simp)
    · split at h
      · exact absurd h (by simp)
      · split at h
        next hpieces => exact absurd h (flatGame_ne_neither s k)
        next hpieces =>
          split at h
          · exact absurd h (flatGame_ne_neither s k)
          · split at h
            · constructor <;> (intro hc; apply hpieces; simp [hc])
            · exact absurd h (flatGame_ne_neither s k)

theorem piecesFor_ge (n : Nat) : 10 ≤ (piecesFor n).1 ∧ 0 ≤ (piecesFor n).2 := by
  unfold piecesFor
  split <;> norm_num

theorem countersInv_new (size komi : Nat) : countersInv (gameNew size komi) := by
  have h := piecesFor_ge size
  unfold countersInv gameNew stateNew
  dsimp only
  norm_num
  omega

theorem readMove_neither_inv {g : Game} {m : Move} {g' : Game}
    (hInv : countersInv g)
    (h : readMove g m = some ((true, Victory.Neither), g')) :
    countersInv g' := by
  unfold readMove at h
  by_cases hply : g.ply < 2
  · rw [if_pos hply] at h
    cases hol : openingLegalMove g.state m with
    | none =>
      rw [hol] at h
      exact Option.noConfusion h
    | some legal =>
      rw [hol] at h
      cases legal with
      | false =>
        have h2 : (some ((false, Victory.Neither), g) :
            Option ((Bool × Victory) × Game)) = some ((true, Victory.Neither), g') := h
        exact absurd h2 (by simp)
      | true =>
        cases hmm : makeMove g.state m (openingColor g.ply) with
        | none =>
          rw [hmm] at h
          exact Option.noConfusion h
        | some res =>
          rw [hmm] at h
          obtain ⟨bb, s2⟩ := res
          cases bb with
          | false =>
            have h2 : (some ((false, Victory.Neither), { g with state := s2 }) :
                Option ((Bool × Victory) × Game))
                = some ((true, Victory.Neither), g') := h
            exact absurd h2 (by simp)
          | true =>
            have h2 : (some ((true, Victory.Neither),
                { g with state := s2, ply := g.ply + 1 }) :
                Option ((Bool × Victory) × Game))
                = some ((true, Victory.Neither), g') := h
            obtain rfl : ({ g with state := s2, ply := g.ply + 1 } : Game) = g' := by
              simpa using h2
            have hc := makeMove_counters hmm
            unfold countersInv at hInv ⊢
            dsimp only at hInv hc ⊢
            obtain ⟨h1, h2c, h3, h4, h5⟩ := hInv
            have h6 := h5 hply
            exact ⟨by omega, by omega, by omega, by omega,
              fun hlt => ⟨by omega, by omega⟩⟩
  · rw [if_neg hply] at h
    have h0 : (match makeMove g.state m
          (if g.ply % 2 = 0 then Color.White else Color.Black) with
        | none => none
        | some (true, s') => some ((true, checkWin s' g.komi
            (if g.ply % 2 = 0 then Color.White else Color.Black)),
            { g with state := s', ply := g.ply + 1 })
        | some (false, s') => some ((false, Victory.Neither), { g with state := s' }))
        = some ((true, Victory.Neither), g') := h
    cases hmm : makeMove g.state m
        (if g.ply % 2 = 0 then Color.White else Color.Black) with
    | none =>
      rw [hmm] at h0
      exact Option.noConfusion h0
    | some res =>
      rw [hmm] at h0
      obtain ⟨bb, s2⟩ := res
      cases bb with
      | false =>
        have h2 : (some ((false, Victory.Neither), { g with state := s2 }) :
            Option ((Bool × Victory) × Game))
            = some ((true, Victory.Neither), g') := h0
        exact absurd h2 (by simp)
      | true =>
        have h2 : (some ((true, checkWin s2 g.komi
            (if g.ply % 2 = 0 then Color.White else Color.Black)),
            { g with state := s2, ply := g.ply + 1 }) :
            Option ((Bool × Victory) × Game))
            = some ((true, Victory.Neither), g') := h0
        simp only [Option.some.injEq, Prod.mk.injEq, true_and] at h2
        obtain ⟨hv, rfl⟩ := h2
        obtain ⟨hp1, hp2⟩ := checkWin_neither hv
        have hc := makeMove_counters hmm
        unfold countersInv at hInv ⊢
        dsimp only at hInv hc ⊢
        obtain ⟨h1, h2c, h3, h4, _⟩ := hInv
        refine ⟨by omega, by omega, by omega, by omega, fun hlt => ?_⟩
        exact absurd hlt (by omega)

theorem playNeither_inv : ∀ (ms : List Move) (g g' : Game), countersInv g →
    playNeither g ms = some g' → countersInv g' := by
  intro ms
  induction ms with
  | nil =>
    intro g g' hI h
    obtain rfl : g = g' := by simpa [playNeither] using h
    exact hI
  | cons m rest ih =>
    intro g g' hI h
    simp only [playNeither] at h
    split at h
    next g1 heq => exact ih g1 g' (readMove_neither_inv hI heq) h
    next hne => exact Option.noConfusion h

theorem readMove_counters_mono {g : Game} {m : Move}
    {out : (Bool × Victory) × Game} (h : readMove g m = some out) :
    out.2.state.player1.pieces ≤ g.state.player1.pieces ∧
    out.2.state.player2.pieces ≤ g.state.player2.pieces ∧
    out.2.state.player1.caps ≤ g.state.player1.caps ∧
    out.2.state.player2.caps ≤ g.state.player2.caps := by
  unfold readMove at h
  by_cases hply : g.ply < 2
  · rw [if_pos hply] at h
    cases hol : openingLegalMove g.state m with
    | none =>
      rw [hol] at h
      exact Option.noConfusion h
    | some legal =>
      rw [hol] at h
      cases legal with
      | false =>
        have h2 : (some ((false, Victory.Neither), g) :
            Option ((Bool × Victory) × Game)) = some out := h
        obtain rfl : ((false, Victory.Neither), g) = out := by simpa using h2
        simp
      | true =>
        cases hmm : makeMove g.state m (openingColor g.ply) with
        | none =>
          rw [hmm] at h
          exact Option.noConfusion h
        | some res =>
          rw [hmm] at h
          obtain ⟨bb, s2⟩ := res
          have hc := makeMove_counters hmm
          cases bb with
          | false =>
            have h2 : (some ((false, Victory.Neither), { g with state := s2 }) :
                Option ((Bool × Victory) × Game)) = some out := h
            obtain rfl : ((false, Victory.Neither), { g with state := s2 }) = out := by
              simpa using h2
            dsimp only
            exact ⟨by omega, by omega, by omega, by omega⟩
          | true =>
            have h2 : (some ((true, Victory.Neither),
                { g with state := s2, ply := g.ply + 1 }) :
                Option ((Bool × Victory) × Game)) = some out := h
            obtain rfl : ((true, Victory.Neither),
                { g with state := s2, ply := g.ply + 1 }) = out := by simpa using h2
            dsimp only
            exact ⟨by omega, by omega, by omega, by omega⟩
  · rw [if_neg hply] at h
    have h0 : (match makeMove g.state m
          (if g.ply % 2 = 0 then Color.White else Color.Black) with
        | none => none
        | some (true, s') => some ((true, checkWin s' g.komi
            (if g.ply % 2 = 0 then Color.White else Color.Black)),
            { g with state := s', ply := g.ply + 1 })
        | some (false, s') => some ((false, Victory.Neither), { g with state := s' }))
        = some out := h
    cases hmm : makeMove g.state m
        (if g.ply % 2 = 0 then Color.White else Color.Black) with
    | none =>
      rw [hmm] at h0
      exact Option.noConfusion h0
    | some res =>
      rw [hmm] at h0
      obtain ⟨bb, s2⟩ := res
      have hc := makeMove_counters hmm
      cases bb with
      | false =>
        have h2 : (some ((false, Victory.Neither), { g with state := s2 }) :
            Option ((Bool × Victory) × Game)) = some out := h0
        obtain rfl : ((false, Victory.Neither), { g with state := s2 }) = out := by
          simpa using h2
        dsimp only
        exact ⟨by omega, by omega, by omega, by omega⟩
      | true =>
        have h2 : (some ((true, checkWin s2 g.komi
            (if g.ply % 2 = 0 then Color.White else Color.Black)),
            { g with state := s2, ply := g.ply + 1 }) :
            Option ((Bool × Victory) × Game)) = some out := h0
        obtain rfl : ((true, checkWin s2 g.komi
            (if g.ply % 2 = 0 then Color.White else Color.Black)),
            { g with state := s2, ply := g.ply + 1 }) = out := by simpa using h2
        dsimp only
        exact ⟨by omega, by omega, by omega, by omega⟩

theorem readMove_throw_players {g : Game} {src : Nat × Nat × Nat} {dir : Char}
    {vec : List Nat} {ptn : String} {out : (Bool × Victory) × Game}
    (h : readMove g (.Throw src dir vec ptn) = some out) :
    out.2.state.player1 = g.state.player1 ∧
    out.2.state.player2 = g.state.player2 := by
  unfold readMove at h
  by_cases hply : g.ply < 2
  · rw [if_pos hply] at h
    have h2 : (some ((false, Victory.Neither), g) :
        Option ((Bool × Victory) × Game)) = some out := h
    obtain rfl : ((false, Victory.Neither), g) = out := by simpa using h2
    exact ⟨rfl, rfl⟩
  · rw [if_neg hply] at h
    have h0 : (match makeMove g.state (.Throw src dir vec ptn)
          (if g.ply % 2 = 0 then Color.White else Color.Black) with
        | none => none
        | some (true, s') => some ((true, checkWin s' g.komi
            (if g.ply % 2 = 0 then Color.White else Color.Black)),
            { g with state := s', ply := g.ply + 1 })
        | some (false, s') => some ((false, Victory.Neither), { g with state := s' }))
        = some out := h
    cases hmm : makeMove g.state (.Throw src dir vec ptn)
        (if g.ply % 2 = 0 then Color.White else Color.Black) with
    | none =>
      rw [hmm] at h0
      exact Option.noConfusion h0
    | some res =>
      rw [hmm] at h0
      obtain ⟨bb, s2⟩ := res
      have hpl := makeMove_throw_players hmm
      cases bb with
      | false =>
        have h2 : (some ((false, Victory.Neither), { g with state := s2 }) :
            Option ((Bool × Victory) × Game)) = some out := h0
        obtain rfl : ((false, Victory.Neither), { g with state := s2 }) = out := by
          simpa using h2
        exact hpl
      | true =>
        have h2 : (some ((true, checkWin s2 g.komi
            (if g.ply % 2 = 0 then Color.White else Color.Black)),
            { g with state := s2, ply := g.ply + 1 }) :
            Option ((Bool × Victory) × Game)) = some out := h0
        obtain rfl : ((true, checkWin s2 g.komi
            (if g.ply % 2 = 0 then Color.White else Color.Black)),
            { g with state := s2, ply := g.ply + 1 }) = out := by simpa using h2
        exact hpl

/-- C10 counterexample: 39 moves on a fresh size-3 game, every one of them
accepted by `read_move`, end with White's piece counter at −1 — play simply
continues past the point where the game was already decided, and flat
placements are never guarded by the piece counter. -/
theorem c10_negative_counter_counterexample :
    (playSucc (gameNew 3 0) c10moves).map
      (fun g => g.state.player1.pieces) = some (-1) := by decide

/-- C10 (amended): as long as play stops once the game is decided (every
executed ply reports `Victory.Neither`), both players' piece and capstone
counters stay non-negative on every supported size; counters never
increase across any `read_move`, and a throw never changes either player's
counters (only placements decrement them). -/
theorem c10_counters_nonnegative :
    (∀ (size komi : Nat) (ms : List Move) (g' : Game),
      playNeither (gameNew size komi) ms = some g' →
      0 ≤ g'.state.player1.pieces ∧ 0 ≤ g'.state.player2.pieces ∧
      0 ≤ g'.state.player1.caps ∧ 0 ≤ g'.state.player2.caps) ∧
    (∀ (g : Game) (m : Move) (out : (Bool × Victory) × Game),
      readMove g m = some out →
      out.2.state.player1.pieces ≤ g.state.player1.pieces ∧
      out.2.state.player2.pieces ≤ g.state.player2.pieces ∧
      out.2.state.player1.caps ≤ g.state.player1.caps ∧
      out.2.state.player2.caps ≤ g.state.player2.caps) ∧
    (∀ (g : Game) (src : Nat × Nat × Nat) (dir : Char) (vec : List Nat)
      (ptn : String) (out : (Bool × Victory) × Game),
      readMove g (.Throw src dir vec ptn) = some out →
      out.2.state.player1 = g.state.player1 ∧
      out.2.state.player2 = g.state.player2) := by
  refine ⟨?_, ?_, ?_⟩
  · intro size komi ms g' hp
    have hI := playNeither_inv ms (gameNew size komi) g' (countersInv_new size komi) hp
    obtain ⟨h1, h2, h3, h4, _⟩ := hI
    exact ⟨by omega, by omega, h1, h2⟩
  · intro g m out h
    exact readMove_counters_mono h
  · intro g src dir vec ptn out h
    exact readMove_throw_players h

/-- Witness for the amended C10: one opening flat on a fresh 5×5 game keeps
all counters non-negative, via the theorem. -/
theorem c10_counters_nonnegative_witness :
    (playNeither (gameNew 5 0) [.Place .Flat (0, 0) "a1"]).map
      (fun g => decide (0 ≤ g.state.player1.pieces ∧ 0 ≤ g.state.player2.pieces))
      = some true := by
  cases hp : playNeither (gameNew 5 0) [.Place .Flat (0, 0) "a1"] with
  | none => exact absurd hp (by decide)
  | some g1 =>
    have hc := c10_counters_nonnegative.1 5 0 [.Place .Flat (0, 0) "a1"] g1 hp
    simp [hc.1, hc.2.1]

end RustTak
